import Mathlib

/-!
Verification development for the `svelte-svg-gen` CLI (SVG → Svelte icon
component generator).  The definitions below are a shallow embedding of the
naming / identity logic, the directory scanner, the icon-set merge, the
aggregate type-artifact emitter, the per-source processing loop with its
conflict handling, and the exit-code decision of `bin/generate-icons.js`
(and, for the merge step, the sibling copy of the script shipped in the
repository).  Strings are modelled as Lean `String`s (lists of Unicode
scalar values); the JavaScript string operations used by the tool
(`toLowerCase`, `toUpperCase`, the regexes `/\.svg$/i`, `/[^a-zA-Z0-9_-]/g`,
the hyphen-run-collapsing and hyphen-trimming replacements, `/[-_]/`, `/([A-Z])/g`, `/\.svelte$/i`) only
ever case-map ASCII letters on the inputs the tool constructs, so they are
modelled by their ASCII behaviour.  `Array.prototype.sort` is a stable sort;
the comparator `a.baseName.localeCompare(b.baseName)` and the default
comparator of `.sort()` are modelled as code-point comparison (what the
untailored comparison gives for the names involved).
-/

/-- The codes 65–90 are the ASCII uppercase letters `A`–`Z`; this is exactly
the character class of the regexes `[A-Z]` and `([A-Z])` in the script. -/
def isUpperCh (c : Char) : Bool :=
  65 ≤ c.toNat && c.toNat ≤ 90

/-- The codes 97–122 are the ASCII lowercase letters `a`–`z`. -/
def isLowerCh (c : Char) : Bool :=
  97 ≤ c.toNat && c.toNat ≤ 122

/-- The codes 48–57 are the ASCII digits `0`–`9`. -/
def isDigitCh (c : Char) : Bool :=
  48 ≤ c.toNat && c.toNat ≤ 57

/-- The character class `[a-zA-Z0-9_-]` of the sanitizer's replacement regex
`/[^a-zA-Z0-9_-]/g` in `sanitizeName` (`bin/generate-icons.js`). -/
def isAllowedChar (c : Char) : Bool :=
  isUpperCh c || isLowerCh c || isDigitCh c || c = '_' || c = '-'

/-- ASCII lower-casing: the effect of JavaScript `toLowerCase` (and of the
case-insensitive regex canonicalisation) on the ASCII range. -/
def toLowerCh (c : Char) : Char :=
  if isUpperCh c then Char.ofNat (c.toNat + 32) else c

/-- ASCII upper-casing: the effect of JavaScript `toUpperCase` on the ASCII
range (`sanitizeName` only ever applies it to characters of a sanitized
base name, which are ASCII). -/
def toUpperCh (c : Char) : Char :=
  if isLowerCh c then Char.ofNat (c.toNat - 32) else c

/-- The canonical record for one icon: the lowercase key exposed to users of
the generated artifacts and the PascalCase identifier used for the on-disk
component file and the generated symbol (the `\x7b baseName, componentName \x7d`
pairs the script passes around). -/
structure IconIdentity where
  baseName : String
  componentName : String
deriving DecidableEq, Repr

/-- Trailing-suffix test of the regex `/\.svg$/i`: the last four characters
are `.svg` up to ASCII case. -/
def matchesSvgSuffix (l : List Char) : Bool :=
  match l.reverse with
  | g :: v :: s :: d :: _ =>
    (g = 'g' || g = 'G') && (v = 'v' || v = 'V') && (s = 's' || s = 'S') && d = '.'
  | _ => false

/-- The replacement `name.replace(/\.svg$/i, "")`. -/
def stripSvgSuffix (l : List Char) : List Char :=
  if matchesSvgSuffix l then l.take (l.length - 4) else l

/-- The replacement `\.replace(/[^a-zA-Z0-9_-]/g, "-")`. -/
def replaceDisallowed (c : Char) : Char :=
  if isAllowedChar c then c else '-'

/-- The replacement that collapses each maximal run of two or more hyphens to
a single hyphen (the global two-or-more-hyphens regex of `sanitizeName`). -/
def collapseDashes : List Char → List Char
  | [] => []
  | [c] => [c]
  | c₁ :: c₂ :: rest =>
    if c₁ = '-' && c₂ = '-' then collapseDashes (c₂ :: rest)
    else c₁ :: collapseDashes (c₂ :: rest)

/-- The replacement `\.replace(/^-+|-+$/g, "")`: drop the leading and the
trailing run of hyphens. -/
def trimDashes (l : List Char) : List Char :=
  ((l.dropWhile (· = '-')).reverse.dropWhile (· = '-')).reverse

/-- The whole base-name pipeline of `sanitizeName`: strip a trailing
case-insensitive `.svg`, replace disallowed characters by `-`, collapse runs
of `-`, trim `-` at both ends, lower-case. -/
def jsBaseNameList (l : List Char) : List Char :=
  (trimDashes (collapseDashes ((stripSvgSuffix l).map replaceDisallowed))).map toLowerCh

/-- String-level wrapper of `jsBaseNameList`. -/
def jsBaseName (s : String) : String :=
  ⟨jsBaseNameList s.data⟩

/-- The separator class of `baseName.split(/[-_]/)`. -/
def sepChar (c : Char) : Bool :=
  c = '-' || c = '_'

/-- JavaScript `split` on a single-character class: split at every separator,
keeping empty pieces (so `split` of the empty list is `[[]]`). -/
def splitSep (p : Char → Bool) : List Char → List (List Char)
  | [] => [[]]
  | c :: rest =>
    if p c then [] :: splitSep p rest
    else
      match splitSep p rest with
      | s :: ss => (c :: s) :: ss
      | [] => [[c]]

/-- The segment map `part.charAt(0).toUpperCase() + part.slice(1)` (on the
empty segment `charAt(0)` is `""`, so the segment is unchanged). -/
def capitalize : List Char → List Char
  | [] => []
  | c :: rest => toUpperCh c :: rest

/-- The PascalCase construction of `sanitizeName`: split the base name on
`-`/`_`, capitalize each segment, concatenate with no separator. -/
def jsComponentNameList (b : List Char) : List Char :=
  ((splitSep sepChar b).map capitalize).flatten

/-- String-level wrapper of `jsComponentNameList`. -/
def jsComponentName (b : String) : String :=
  ⟨jsComponentNameList b.data⟩

/-- The function `sanitizeName(name)` of `bin/generate-icons.js` (both copies
of the script contain the identical function): derive the lowercase
`baseName`; fail with `null` when it is empty; otherwise also derive the
PascalCase `componentName`. -/
def sanitizeName (name : String) : Option IconIdentity :=
  if jsBaseName name = "" then none
  else some { baseName := jsBaseName name, componentName := jsComponentName (jsBaseName name) }

/-- The replacement `/([A-Z])/g → (offset > 0 ? "-" : "") + match.toLowerCase()`
of `componentNameToBaseName`: the `Bool` argument records whether the current
position is the start of the string (offset 0). -/
def insertDashes : Bool → List Char → List Char
  | _, [] => []
  | isFirst, c :: rest =>
    (if isUpperCh c then
      (if isFirst then [toLowerCh c] else ['-', toLowerCh c])
     else [c]) ++ insertDashes false rest

/-- The final replacement of `componentNameToBaseName`: drop one leading hyphen. -/
def stripOneDash : List Char → List Char
  | '-' :: rest => rest
  | l => l

/-- The function `componentNameToBaseName(componentName)`: `null` on the empty
identifier, otherwise insert `-` before every ASCII uppercase letter that is
not at offset 0, lower-case those letters, and drop one leading `-`. -/
def componentNameToBaseName (componentName : String) : Option String :=
  if componentName = "" then none
  else some ⟨stripOneDash (insertDashes true componentName.data)⟩

/-- No two adjacent characters are both ASCII uppercase: the precondition the
specification attaches to the name round-trip ("no consecutive uppercase
letters in the component identifier"). -/
def noConsecUpper : List Char → Bool
  | c₁ :: c₂ :: rest => !(isUpperCh c₁ && isUpperCh c₂) && noConsecUpper (c₂ :: rest)
  | _ => true

/-- The first character is an ASCII lowercase letter. -/
def headIsLower : List Char → Bool
  | c :: _ => isLowerCh c
  | [] => false

/-- Interleave a hyphen before every segment (the shape taken by the segments
after the first one when a split list is reassembled). -/
def dashJoin (ss : List (List Char)) : List Char :=
  (ss.map (fun p => '-' :: p)).flatten

/-- Reassemble split segments with single hyphens between them. -/
def joinSep : List (List Char) → List Char
  | [] => []
  | s :: ss => s ++ dashJoin ss

/-- Trailing-suffix test of the regex `/\.svelte$/i` and of
`file.toLowerCase().endsWith(".svelte")`: the last seven characters are
`.svelte` up to ASCII case (both phrasings in the script accept exactly
these file names). -/
def matchesSvelteSuffix (l : List Char) : Bool :=
  match l.reverse with
  | e₂ :: t :: lc :: e₁ :: v :: s :: d :: _ =>
    (e₂ = 'e' || e₂ = 'E') && (t = 't' || t = 'T') && (lc = 'l' || lc = 'L') &&
    (e₁ = 'e' || e₁ = 'E') && (v = 'v' || v = 'V') && (s = 's' || s = 'S') && d = '.'
  | _ => false

/-- The filter `file.toLowerCase().endsWith(".svelte")` of the components
directory scanner. -/
def isSvelteFileName (file : String) : Bool :=
  matchesSvelteSuffix file.data

/-- The stem extraction `file.replace(/\.svelte$/i, "")`. -/
def stripSvelteSuffix (l : List Char) : List Char :=
  if matchesSvelteSuffix l then l.take (l.length - 7) else l

/-- The per-file body of `getCurrentIconsFromComponents`: recover the base
name from the stem; skip the file when recovery fails or yields the empty
string (the `if (!baseName)` guard; the companion `componentName` truthiness
check is subsumed because recovery of the empty stem already fails). -/
def iconOfStem (stem : String) : Option IconIdentity :=
  match componentNameToBaseName stem with
  | none => none
  | some b => if b = "" then none else some { baseName := b, componentName := stem }

/-- JavaScript `Map.prototype.set`: replace the value in place when the key is
present (keeping the original insertion position), append otherwise. -/
def jsMapSet {α : Type} (m : List (String × α)) (k : String) (v : α) : List (String × α) :=
  if m.any (fun p => p.1 = k) then m.map (fun p => if p.1 = k then (k, v) else p)
  else m ++ [(k, v)]

/-- The keys of an insertion-ordered map, in order. -/
def mapKeys {α : Type} (m : List (String × α)) : List String :=
  m.map Prod.fst

/-- JavaScript `Map.prototype.get` (`undefined` becomes `none`). -/
def mapLookup {α : Type} (m : List (String × α)) (k : String) : Option α :=
  (m.find? (fun p => p.1 = k)).map Prod.snd

/-- One iteration of the directory loop of `getCurrentIconsFromComponents`. -/
def scanStep (m : List (String × IconIdentity)) (file : String) : List (String × IconIdentity) :=
  if isSvelteFileName file then
    match iconOfStem ⟨stripSvelteSuffix file.data⟩ with
    | some icon => jsMapSet m ⟨stripSvelteSuffix file.data⟩ icon
    | none => m
  else m

/-- The function `getCurrentIconsFromComponents(iconsComponentDir)` as a pure
function of the directory listing: fold the per-file step over the entries
and return the map's values in insertion order (`Array.from(existingIcons.values())`). -/
def getCurrentIconsFromComponents (files : List String) : List IconIdentity :=
  (files.foldl scanStep []).map Prod.snd

/-- Code-point comparison of character lists: `a ≤ b` in the lexicographic
order on scalar values.  This models both `localeCompare` (as used on the
lower-cased base names; see the module comment) and the default ordinal
comparator of `Array.prototype.sort()`. -/
def listCharLe : List Char → List Char → Bool
  | [], _ => true
  | _ :: _, [] => false
  | a :: as, b :: bs =>
    if a.toNat < b.toNat then true
    else if b.toNat < a.toNat then false
    else listCharLe as bs

/-- Code-point order on strings. -/
def nameLe (a b : String) : Prop :=
  listCharLe a.data b.data = true

instance : DecidableRel nameLe := fun a b => Bool.decEq (listCharLe a.data b.data) true

/-- The comparator `(a, b) => a.baseName.localeCompare(b.baseName)` of the
icon sorts, as the ordering relation it induces. -/
def baseLe (a b : IconIdentity) : Prop :=
  listCharLe a.baseName.data b.baseName.data = true

instance : DecidableRel baseLe := fun a b => Bool.decEq (listCharLe a.baseName.data b.baseName.data) true

/-- The sort `icons.sort((a, b) => a.baseName.localeCompare(b.baseName))`:
`Array.prototype.sort` is stable, so any stable sort by the induced order
models it; `insertionSort` is stable. -/
def sortIcons (icons : List IconIdentity) : List IconIdentity :=
  List.insertionSort baseLe icons

/-- The default-comparator sort `names.sort()` on an array of strings. -/
def sortNames (names : List String) : List String :=
  List.insertionSort nameLe names

/-- The spread `[...new Set(xs)]`: de-duplicate keeping first occurrences in
order (`seen` accumulates the elements already emitted). -/
def jsSetDedupAux (seen : List String) : List String → List String
  | [] => []
  | a :: rest =>
    if a ∈ seen then jsSetDedupAux seen rest
    else a :: jsSetDedupAux (seen ++ [a]) rest

/-- The spread `[...new Set(xs)]`. -/
def jsSetDedup (l : List String) : List String :=
  jsSetDedupAux [] l

/-- One line of the generated `iconMap` literal:
`  '$\x7bicon.baseName\x7d': '$\x7bicon.componentName\x7d',`. -/
def iconMapLine (icon : IconIdentity) : String :=
  "  \x27" ++ icon.baseName ++ "\x27: \x27" ++ icon.componentName ++ "\x27,"

/-- The `iconMapContent` local: the map lines of the sorted icons joined with
newlines (the script sorts the array in place before building the lines). -/
def iconMapContent (icons : List IconIdentity) : String :=
  String.intercalate "\n" ((sortIcons icons).map iconMapLine)

/-- The `uniqueIconBaseNames` local:
`[...new Set(allIcons.map((icon) => icon.baseName))].sort()`. -/
def uniqueIconBaseNames (icons : List IconIdentity) : List String :=
  sortNames (jsSetDedup ((sortIcons icons).map (fun i => i.baseName)))

/-- The `typeContent` template literal of `bin/generate-icons.js`: the
auto-generation banner, the closed union of base-name literals, and the
`iconMap` record literal.  (The sibling copy of the script differs only in
the banner constant `SCRIPT_NAME` and a space in the banner.) -/
def typeContent (icons : List IconIdentity) : String :=
  "// Auto-generated by svelte-svg-gen\n// Run npx svelte-svg-gen -r to regenerate.\n\nexport type SvgName = \n  | \x27" ++
    String.intercalate "\x27\n  | \x27" (uniqueIconBaseNames icons) ++
    "\x27;\n\nexport const iconMap: Record<SvgName, string> = \x7b\n" ++
    iconMapContent icons ++ "\n\x7d;\n"

/-- Modelled from the spec: `createSvgIconLoaderComponent` lives in
`src/templates/svgIconLoaderTemplate.js`, which is not among the repository
files provided; per the specification it takes no arguments and returns a
fixed, icon-set-independent loader component text, so it is modelled as a
constant. -/
def createSvgIconLoaderComponent : String :=
  "<script>const component = iconMap[name];</script>\n"

/-- The function `regenerateFilesFromComponents` of `bin/generate-icons.js`
as a pure function of the components-directory listing: scan the directory;
if no valid component is found, write nothing (`none`); otherwise produce the
type-definition text and the loader text that the function writes.  No source
resolution or rendering is involved: the listing is the only input. -/
def regenerateFilesFromComponents (files : List String) : Option (String × String) :=
  if (getCurrentIconsFromComponents files).isEmpty then none
  else some (typeContent (getCurrentIconsFromComponents files), createSvgIconLoaderComponent)

/-- Left-biased choice on options (`some` on the left wins). -/
def oOr {α : Type} : Option α → Option α → Option α
  | some a, _ => some a
  | none, b => b

/-- The last element of the list whose `componentName` is `k` — the value a
sequence of `Map.set` calls leaves behind for key `k`. -/
def lastWithKey (icons : List IconIdentity) (k : String) : Option IconIdentity :=
  icons.reverse.find? (fun i => i.componentName = k)

/-- The insertion loop `icons.forEach((icon) => allIconsMap.set(icon.componentName, icon))`. -/
def insertIcons (m : List (String × IconIdentity)) (icons : List IconIdentity) :
    List (String × IconIdentity) :=
  icons.foldl (fun acc i => jsMapSet acc i.componentName i) m

/-- The `allIconsMap` of the aggregation step: a map keyed by
`componentName`, filled with `existingIcons` first and then
`newlyGeneratedIcons` (so an incoming icon overwrites an existing one with
the same identifier). -/
def allIconsMap (existingIcons newlyGeneratedIcons : List IconIdentity) :
    List (String × IconIdentity) :=
  insertIcons (insertIcons [] existingIcons) newlyGeneratedIcons

/-- The merge of the aggregation step: the values of `allIconsMap`, sorted by
base name (`allIcons.sort((a, b) => a.baseName.localeCompare(b.baseName))`). -/
def mergeIcons (existingIcons newlyGeneratedIcons : List IconIdentity) : List IconIdentity :=
  sortIcons ((allIconsMap existingIcons newlyGeneratedIcons).map Prod.snd)

/-- A pending source of the processing loop: its provenance string and the
names `sanitizeName` derived for it (the `type`/`path`/`content` payload is
abstracted into the rendering oracle, see `mainStep`). -/
structure Source where
  origin : String
  baseName : String
  componentName : String
deriving DecidableEq, Repr

/-- The target path `path.join(iconsComponentDir, componentName + ".svelte")`
of a source, relative to the components directory. -/
def svePath (s : Source) : String :=
  s.componentName ++ ".svelte"

/-- The mutable state of one generation run: the components directory
contents (a path-keyed file map), and the `newlyGeneratedIcons`, `conflicts`,
`processedComponentNamesInRun`, `successCount`, `errorCount` locals of
`run()`. -/
structure RunState where
  fs : List (String × String)
  newlyGeneratedIcons : List IconIdentity
  conflicts : List Source
  processedComponentNamesInRun : List String
  successCount : Nat
  errorCount : Nat
deriving DecidableEq, Repr

/-- The state at the start of the processing loop: the directory as prepared
(`fs₀` is empty when `--clean` ran), nothing generated, no conflicts, no
names processed, zero counters. -/
def initState (fs₀ : List (String × String)) : RunState :=
  { fs := fs₀, newlyGeneratedIcons := [], conflicts := [],
    processedComponentNamesInRun := [], successCount := 0, errorCount := 0 }

/-- The existence check `await fs.pathExists(outputSveltePath)` of the main
loop, short-circuited to `false` under `--clean` (the script skips the check
then, because the directory was just emptied). -/
def targetFileOnDisk (clean : Bool) (fs : List (String × String)) (s : Source) : Bool :=
  if clean then false else (mapLookup fs (svePath s)).isSome

/-- One iteration of the main `for (const source of sourcesToProcess)` loop of
`bin/generate-icons.js`: reject a duplicate component name as a failure;
otherwise check for an existing file at the target path (skipped under
`--clean`) and either queue a conflict or render and write.  `render` is the
oracle for `processSvgSource` (file read + SVGO + template): `none` models a
thrown error, caught and counted as a failure. -/
def mainStep (render : Source → Option String) (clean : Bool) (st : RunState) (s : Source) :
    RunState :=
  if s.componentName ∈ st.processedComponentNamesInRun then
    { st with errorCount := st.errorCount + 1 }
  else
    if targetFileOnDisk clean st.fs s then
      { st with conflicts := st.conflicts ++ [s] }
    else
      match render s with
      | some content =>
        { st with
          fs := jsMapSet st.fs (svePath s) content,
          newlyGeneratedIcons :=
            st.newlyGeneratedIcons ++ [{ baseName := s.baseName, componentName := s.componentName }],
          processedComponentNamesInRun := st.processedComponentNamesInRun ++ [s.componentName],
          successCount := st.successCount + 1 }
      | none => { st with errorCount := st.errorCount + 1 }

/-- The whole main processing loop over the batch of sources. -/
def mainLoop (render : Source → Option String) (clean : Bool) (fs₀ : List (String × String))
    (sources : List Source) : RunState :=
  sources.foldl (mainStep render clean) (initState fs₀)

/-- One iteration of the overwrite loop run after the operator accepts the
batch conflict prompt: skip (silently — no counter changes) a name already
generated in this run, otherwise render and overwrite. -/
def overwriteStep (render : Source → Option String) (st : RunState) (s : Source) : RunState :=
  if s.componentName ∈ st.processedComponentNamesInRun then st
  else
    match render s with
    | some content =>
      { st with
        fs := jsMapSet st.fs (svePath s) content,
        newlyGeneratedIcons :=
          st.newlyGeneratedIcons ++ [{ baseName := s.baseName, componentName := s.componentName }],
        processedComponentNamesInRun := st.processedComponentNamesInRun ++ [s.componentName],
        successCount := st.successCount + 1 }
    | none => { st with errorCount := st.errorCount + 1 }

/-- The processing phase of `run()` in `bin/generate-icons.js`: the main loop,
then the batch conflict resolution — a single accept/decline answer
(`overwriteAnswer`); accepting runs the overwrite loop over all queued
conflicts, declining counts them all as skipped (`skipCount`, the second
component of the result). -/
def processRun (render : Source → Option String) (clean overwriteAnswer : Bool)
    (fs₀ : List (String × String)) (sources : List Source) : RunState × Nat :=
  let st := mainLoop render clean fs₀ sources
  if st.conflicts.isEmpty then (st, 0)
  else if overwriteAnswer then (st.conflicts.foldl (overwriteStep render) st, 0)
  else (st, st.conflicts.length)

/-- The early-exit decision after source resolution (`bin/generate-icons.js`
lines 447–458): inputs were provided but nothing resolved → warn and
`process.exit(0)`; no input method at all and no regenerate → error and
`process.exit(1)`; otherwise continue. -/
def earlyExitCode (inputProvided sourcesEmpty regenerate : Bool) : Option Nat :=
  if sourcesEmpty && inputProvided then some 0
  else if !inputProvided && !regenerate then some 1
  else none

/-- The process exit code as a function of the early-exit decision: when the
run continues past it, `run()` finishes without further `process.exit` calls
and the Node process exits with code 0 (absent unhandled exceptions). -/
def runExitCode (inputProvided sourcesEmpty regenerate : Bool) : Nat :=
  match earlyExitCode inputProvided sourcesEmpty regenerate with
  | some c => c
  | none => 0
/-- Evaluating `Char.ofNat` at a scalar value below the surrogate range. -/
theorem toNat_ofNat_valid {m : Nat} (h : m < 55296) : (Char.ofNat m).toNat = m := by
  have hv : m.isValidChar := Or.inl h
  simp [Char.ofNat, hv, Char.ofNatAux, Char.toNat, UInt32.toNat]

/-- Two characters with the same scalar value are equal. -/
theorem char_toNat_inj {a b : Char} (h : a.toNat = b.toNat) : a = b :=
  Char.ext (UInt32.ext h)

/-- Unfolding `isUpperCh` into its scalar-value bounds. -/
theorem isUpperCh_iff (c : Char) : isUpperCh c = true ↔ 65 ≤ c.toNat ∧ c.toNat ≤ 90 := by
  simp [isUpperCh]

/-- Unfolding `isLowerCh` into its scalar-value bounds. -/
theorem isLowerCh_iff (c : Char) : isLowerCh c = true ↔ 97 ≤ c.toNat ∧ c.toNat ≤ 122 := by
  simp [isLowerCh]

/-- Lower-casing fixes every character that is not an ASCII uppercase letter. -/
theorem toLowerCh_of_not_upper {c : Char} (h : isUpperCh c = false) :
    toLowerCh c = c := by
  simp [toLowerCh, h]

/-- Upper-casing fixes every character that is not an ASCII lowercase letter
(in particular digits). -/
theorem toUpperCh_of_not_lower {c : Char} (h : isLowerCh c = false) :
    toUpperCh c = c := by
  simp [toUpperCh, h]

/-- Scalar value of the lower-casing of an ASCII uppercase letter. -/
theorem toNat_toLowerCh_of_upper {c : Char} (h : isUpperCh c = true) :
    (toLowerCh c).toNat = c.toNat + 32 := by
  have hb := (isUpperCh_iff c).mp h
  have hlt : c.toNat + 32 < 55296 := by omega
  unfold toLowerCh
  rw [if_pos h]
  exact toNat_ofNat_valid hlt

/-- Scalar value of the upper-casing of an ASCII lowercase letter. -/
theorem toNat_toUpperCh_of_lower {c : Char} (h : isLowerCh c = true) :
    (toUpperCh c).toNat = c.toNat - 32 := by
  have hb := (isLowerCh_iff c).mp h
  have hlt : c.toNat - 32 < 55296 := by omega
  unfold toUpperCh
  rw [if_pos h]
  exact toNat_ofNat_valid hlt

/-- Lower-casing never yields an ASCII uppercase letter. -/
theorem isUpperCh_toLowerCh (c : Char) : isUpperCh (toLowerCh c) = false := by
  by_cases h : isUpperCh c = true
  · have hb := (isUpperCh_iff c).mp h
    rw [Bool.eq_false_iff]
    intro hc
    have hc2 := (isUpperCh_iff _).mp hc
    rw [toNat_toLowerCh_of_upper h] at hc2
    omega
  · have hf : isUpperCh c = false := by simpa using h
    rw [toLowerCh_of_not_upper hf]
    exact hf

/-- Lower-casing an ASCII uppercase letter lands in `a`–`z`. -/
theorem toLowerCh_of_upper {c : Char} (h : isUpperCh c = true) :
    isLowerCh (toLowerCh c) = true := by
  have hb := (isUpperCh_iff c).mp h
  refine (isLowerCh_iff _).mpr ?_
  rw [toNat_toLowerCh_of_upper h]
  omega

/-- Upper-casing an ASCII lowercase letter yields an uppercase letter. -/
theorem isUpperCh_toUpperCh {c : Char} (h : isLowerCh c = true) :
    isUpperCh (toUpperCh c) = true := by
  have hb := (isLowerCh_iff c).mp h
  refine (isUpperCh_iff _).mpr ?_
  rw [toNat_toUpperCh_of_lower h]
  omega

/-- Upper-casing then lower-casing an ASCII lowercase letter is the identity. -/
theorem toLowerCh_toUpperCh {c : Char} (h : isLowerCh c = true) :
    toLowerCh (toUpperCh c) = c := by
  have hb := (isLowerCh_iff c).mp h
  apply char_toNat_inj
  rw [toNat_toLowerCh_of_upper (isUpperCh_toUpperCh h), toNat_toUpperCh_of_lower h]
  omega


/-- Rejecting a duplicate component name only increments the error counter. -/
theorem mainStep_duplicate (render : Source → Option String) (clean : Bool) (st : RunState)
    (s : Source) (h : s.componentName ∈ st.processedComponentNamesInRun) :
    mainStep render clean st s = { st with errorCount := st.errorCount + 1 } := by
  unfold mainStep
  rw [if_pos h]

/-- Every icon recorded as newly generated had its component name recorded as
processed: the two lists are appended to together, in both write sites. -/
theorem mainStep_newly_processed (render : Source → Option String) (clean : Bool)
    (st : RunState) (s : Source)
    (h : ∀ i ∈ st.newlyGeneratedIcons, i.componentName ∈ st.processedComponentNamesInRun) :
    ∀ i ∈ (mainStep render clean st s).newlyGeneratedIcons,
      i.componentName ∈ (mainStep render clean st s).processedComponentNamesInRun := by
  unfold mainStep
  by_cases hdup : s.componentName ∈ st.processedComponentNamesInRun
  · rw [if_pos hdup]; exact h
  · rw [if_neg hdup]
    by_cases hex : targetFileOnDisk clean st.fs s = true
    · rw [if_pos hex]; exact h
    · rw [if_neg hex]
      cases hr : render s with
      | none => exact h
      | some content =>
        intro i hi
        rcases List.mem_append.mp hi with hi | hi
        · exact List.mem_append_left _ (h i hi)
        · simp only [List.mem_singleton] at hi
          subst hi
          exact List.mem_append_right _ (List.mem_singleton.mpr rfl)

/-- The invariant of `mainStep_newly_processed`, folded over a whole source
list. -/
theorem foldl_mainStep_newly_processed (render : Source → Option String) (clean : Bool)
    (sources : List Source) :
    ∀ st : RunState,
      (∀ i ∈ st.newlyGeneratedIcons, i.componentName ∈ st.processedComponentNamesInRun) →
      ∀ i ∈ (sources.foldl (mainStep render clean) st).newlyGeneratedIcons,
        i.componentName ∈ (sources.foldl (mainStep render clean) st).processedComponentNamesInRun := by
  induction sources with
  | nil => intro st h; simpa using h
  | cons s rest ih =>
    intro st h
    exact ih _ (mainStep_newly_processed render clean st s h)

/-- Invariant of the whole main loop: newly generated icons have processed
component names. -/
theorem mainLoop_newly_processed (render : Source → Option String) (clean : Bool)
    (fs₀ : List (String × String)) (sources : List Source) :
    ∀ i ∈ (mainLoop render clean fs₀ sources).newlyGeneratedIcons,
      i.componentName ∈ (mainLoop render clean fs₀ sources).processedComponentNamesInRun := by
  refine foldl_mainStep_newly_processed render clean sources (initState fs₀) ?_
  intro i hi
  simp [initState] at hi

/-- C6: for every input string, `sanitizeName` strips a trailing
case-insensitive `.svg` suffix, replaces every character outside
`[A-Za-z0-9_-]` with `-`, collapses runs of `-`, trims leading and trailing
`-`, and lower-cases the result to obtain the base name (the `jsBaseName`
pipeline); it returns `null` exactly when that base name is empty — in
particular on `""`, `".svg"` and `"---"` — and otherwise returns the
component name obtained by splitting the base name on `-`/`_`, upper-casing
each segment's first character and concatenating (`jsComponentName`). -/
theorem sanitizeName_contract :
    (∀ s : String,
      (sanitizeName s = none ↔ jsBaseName s = "") ∧
      (jsBaseName s ≠ "" →
        sanitizeName s =
          some { baseName := jsBaseName s,
                 componentName := jsComponentName (jsBaseName s) })) ∧
    sanitizeName "" = none ∧ sanitizeName ".svg" = none ∧ sanitizeName "---" = none := by
  refine ⟨fun s => ⟨?_, ?_⟩, by decide, by decide, by decide⟩
  · unfold sanitizeName
    by_cases h : jsBaseName s = "" <;> simp [h]
  · intro h
    unfold sanitizeName
    rw [if_neg h]

/-- C6 witness: the contract evaluated at `"my-icon.svg"`. -/
theorem sanitizeName_contract_witness :
    sanitizeName "my-icon.svg" = some { baseName := "my-icon", componentName := "MyIcon" } := by
  have h := (sanitizeName_contract.1 "my-icon.svg").2 (by decide)
  rw [h]
  decide

/-- C8 counterexample: with inputs provided, zero usable sources resolved and
no regeneration requested, the script warns and calls `process.exit(0)` — a
zero exit code, where the claim requires a non-zero one. -/
theorem runExitCode_zero_sources_cx : runExitCode true true false = 0 := by decide

/-- C8 amended: with inputs provided but zero usable sources and no
regeneration, the process exits with code zero (after a warning); the
non-zero exit code 1 occurs exactly when no input method was provided at all
and no regeneration was requested; and a run that proceeds past source
resolution (some source resolved) finishes with exit code zero. -/
theorem runExitCode_spec :
    runExitCode true true false = 0 ∧
    (∀ ip rg : Bool, runExitCode ip false rg = if ip || rg then 0 else 1) ∧
    (∀ ip se rg : Bool, runExitCode ip se rg = 1 ↔ ip = false ∧ rg = false) := by
  refine ⟨by decide, by decide, by decide⟩

/-- C3 counterexample: two sources of one batch share the component identifier
`MyIcon`; the first fails during rendering (so its name is never recorded as
processed) and the second — the duplicate — is then processed normally and
written, rather than rejected: the final state shows its file on disk, the
icon in the newly-generated list, one success and only the first source's
failure counted. -/
theorem duplicate_in_batch_cx :
    mainLoop (fun s => if s.origin = "bad" then none else some "CONTENT") false []
        [{ origin := "bad", baseName := "my-icon", componentName := "MyIcon" },
         { origin := "ok", baseName := "my-icon", componentName := "MyIcon" }] =
      { fs := [("MyIcon.svelte", "CONTENT")],
        newlyGeneratedIcons := [{ baseName := "my-icon", componentName := "MyIcon" }],
        conflicts := [],
        processedComponentNamesInRun := ["MyIcon"],
        successCount := 1,
        errorCount := 1 } := by decide

/-- C3 amended: whenever two sources of one batch share the same component
identifier and the earlier occurrence was successfully generated (it appears
in the newly-generated list, hence its name is recorded as processed), the
later occurrence is rejected rather than processed: the only state change is
an incremented error count — no file is written for it, and in particular the
file written for the earlier occurrence remains unmodified. -/
theorem duplicate_in_batch_rejected (render : Source → Option String) (clean : Bool)
    (fs₀ : List (String × String)) (pre : List Source) (s : Source)
    (h : s.componentName ∈
      (mainLoop render clean fs₀ pre).newlyGeneratedIcons.map (fun i => i.componentName)) :
    mainLoop render clean fs₀ (pre ++ [s]) =
      { mainLoop render clean fs₀ pre with
        errorCount := (mainLoop render clean fs₀ pre).errorCount + 1 } := by
  have hmem : s.componentName ∈ (mainLoop render clean fs₀ pre).processedComponentNamesInRun := by
    rcases List.mem_map.mp h with ⟨i, hi, hieq⟩
    rw [← hieq]
    exact mainLoop_newly_processed render clean fs₀ pre i hi
  have hsplit : mainLoop render clean fs₀ (pre ++ [s]) =
      mainStep render clean (mainLoop render clean fs₀ pre) s := by
    unfold mainLoop
    rw [List.foldl_append]
    rfl
  rw [hsplit]
  exact mainStep_duplicate render clean _ s hmem

/-- C3 witness: a batch whose first source succeeds; the duplicate second
source is rejected with only the error counter moving. -/
theorem duplicate_in_batch_rejected_witness :
    "MyIcon" ∈
      (mainLoop (fun _ => some "C") false []
        [{ origin := "a", baseName := "my-icon", componentName := "MyIcon" }]).newlyGeneratedIcons.map
        (fun i => i.componentName) ∧
    mainLoop (fun _ => some "C") false []
        ([{ origin := "a", baseName := "my-icon", componentName := "MyIcon" }] ++
         [{ origin := "b", baseName := "my-icon", componentName := "MyIcon" }]) =
      { mainLoop (fun _ => some "C") false []
          [{ origin := "a", baseName := "my-icon", componentName := "MyIcon" }] with
        errorCount :=
          (mainLoop (fun _ => some "C") false []
            [{ origin := "a", baseName := "my-icon", componentName := "MyIcon" }]).errorCount + 1 } :=
  ⟨by decide,
   duplicate_in_batch_rejected (fun _ => some "C") false []
     [{ origin := "a", baseName := "my-icon", componentName := "MyIcon" }]
     { origin := "b", baseName := "my-icon", componentName := "MyIcon" } (by decide)⟩

/-- A non-empty character list makes a non-empty string. -/
theorem mk_ne_empty {l : List Char} (h : l ≠ []) : (⟨l⟩ : String) ≠ "" := by
  intro hc
  have h2 := congrArg String.data hc
  rw [show ("".data) = ([] : List Char) from rfl] at h2
  exact h h2

/-- `jsMapSet` preserves a value-determined-by-key invariant. -/
theorem jsMapSet_sound {α : Type} (g : String → Option α) (m : List (String × α))
    (k : String) (v : α) (hm : ∀ p ∈ m, g p.1 = some p.2) (hv : g k = some v) :
    ∀ p ∈ jsMapSet m k v, g p.1 = some p.2 := by
  unfold jsMapSet
  by_cases h : m.any (fun p => p.1 = k) = true
  · rw [if_pos h]
    intro p hp
    rcases List.mem_map.mp hp with ⟨q, hq, hqe⟩
    by_cases hqk : q.1 = k
    · rw [if_pos hqk] at hqe
      rw [← hqe]
      exact hv
    · rw [if_neg hqk] at hqe
      rw [← hqe]
      exact hm q hq
  · rw [if_neg h]
    intro p hp
    rcases List.mem_append.mp hp with hp | hp
    · exact hm p hp
    · simp only [List.mem_singleton] at hp
      rw [hp]
      exact hv

/-- On a sound map, setting a key to its determined value either leaves the
map unchanged (key present) or appends the entry (key fresh). -/
theorem jsMapSet_of_sound {α : Type} (g : String → Option α) (m : List (String × α))
    (k : String) (v : α) (hm : ∀ p ∈ m, g p.1 = some p.2) (hv : g k = some v) :
    jsMapSet m k v = if m.any (fun p => p.1 = k) then m else m ++ [(k, v)] := by
  unfold jsMapSet
  by_cases h : m.any (fun p => p.1 = k) = true
  · rw [if_pos h, if_pos h]
    conv_rhs => rw [← List.map_id m]
    apply List.map_congr_left
    intro p hp
    by_cases hpk : p.1 = k
    · rw [if_pos hpk]
      have h1 := hm p hp
      rw [hpk, hv] at h1
      have h2 : v = p.2 := by injection h1
      rw [h2, ← hpk]
      rfl
    · rw [if_neg hpk]
      rfl
  · rw [if_neg h, if_neg h]

/-- If some entry of a sound map has key `k` with `g k = some v`, then `v` is
among the map's values. -/
theorem sound_mem_values {α : Type} (g : String → Option α) (m : List (String × α))
    (k : String) (v : α) (hm : ∀ p ∈ m, g p.1 = some p.2) (hv : g k = some v)
    (hk : m.any (fun p => p.1 = k) = true) : v ∈ m.map Prod.snd := by
  rcases List.any_eq_true.mp hk with ⟨p, hp, hpk⟩
  have hpk' : p.1 = k := of_decide_eq_true hpk
  have h1 := hm p hp
  rw [hpk', hv] at h1
  have h2 : v = p.2 := by injection h1
  rw [h2]
  exact List.mem_map_of_mem Prod.snd hp

/-- Membership in the scanner's result: an icon is produced exactly when some
listed file is accepted by the `.svelte` filter and its stem recovers to that
icon. -/
theorem foldl_scanStep_mem (files : List String) :
    ∀ m : List (String × IconIdentity),
      (∀ p ∈ m, iconOfStem p.1 = some p.2) →
      ∀ icon : IconIdentity,
        (icon ∈ (files.foldl scanStep m).map Prod.snd ↔
          icon ∈ m.map Prod.snd ∨
          ∃ f ∈ files, isSvelteFileName f = true ∧
            iconOfStem ⟨stripSvelteSuffix f.data⟩ = some icon) := by
  induction files with
  | nil =>
    intro m hm icon
    simp
  | cons f fs ih =>
    intro m hm icon
    rw [List.foldl_cons]
    by_cases hsv : isSvelteFileName f = true
    · cases hio : iconOfStem ⟨stripSvelteSuffix f.data⟩ with
      | none =>
        have hstep : scanStep m f = m := by
          unfold scanStep
          rw [if_pos hsv, hio]
        rw [hstep, ih m hm icon]
        simp only [List.mem_cons]
        constructor
        · rintro (h | ⟨g, hg, hgs, hgi⟩)
          · exact Or.inl h
          · exact Or.inr ⟨g, Or.inr hg, hgs, hgi⟩
        · rintro (h | ⟨g, (rfl | hg), hgs, hgi⟩)
          · exact Or.inl h
          · rw [hio] at hgi
            cases hgi
          · exact Or.inr ⟨g, hg, hgs, hgi⟩
      | some icon₀ =>
        have hstep : scanStep m f = jsMapSet m ⟨stripSvelteSuffix f.data⟩ icon₀ := by
          unfold scanStep
          rw [if_pos hsv, hio]
        rw [hstep, jsMapSet_of_sound iconOfStem m _ icon₀ hm hio]
        by_cases hany : m.any (fun p => p.1 = (⟨stripSvelteSuffix f.data⟩ : String)) = true
        · rw [if_pos hany, ih m hm icon]
          have hval : icon₀ ∈ m.map Prod.snd :=
            sound_mem_values iconOfStem m _ icon₀ hm hio hany
          simp only [List.mem_cons]
          constructor
          · rintro (h | ⟨g, hg, hgs, hgi⟩)
            · exact Or.inl h
            · exact Or.inr ⟨g, Or.inr hg, hgs, hgi⟩
          · rintro (h | ⟨g, (rfl | hg), hgs, hgi⟩)
            · exact Or.inl h
            · rw [hio] at hgi
              have : icon₀ = icon := by injection hgi
              rw [← this]
              exact Or.inl hval
            · exact Or.inr ⟨g, hg, hgs, hgi⟩
        · rw [if_neg hany]
          have hm' : ∀ p ∈ m ++ [(⟨stripSvelteSuffix f.data⟩, icon₀)], iconOfStem p.1 = some p.2 := by
            intro p hp
            rcases List.mem_append.mp hp with hp | hp
            · exact hm p hp
            · simp only [List.mem_singleton] at hp
              rw [hp]
              exact hio
          rw [ih _ hm' icon]
          simp only [List.map_append, List.map_cons, List.map_nil, List.mem_append,
            List.mem_singleton, List.mem_cons, List.not_mem_nil, or_false]
          constructor
          · rintro ((h | h) | ⟨g, hg, hgs, hgi⟩)
            · exact Or.inl h
            · rw [h]
              exact Or.inr ⟨f, Or.inl rfl, hsv, hio⟩
            · exact Or.inr ⟨g, Or.inr hg, hgs, hgi⟩
          · rintro (h | ⟨g, (rfl | hg), hgs, hgi⟩)
            · exact Or.inl (Or.inl h)
            · rw [hio] at hgi
              have : icon₀ = icon := by injection hgi
              exact Or.inl (Or.inr this.symm)
            · exact Or.inr ⟨g, hg, hgs, hgi⟩
    · have hstep : scanStep m f = m := by
        unfold scanStep
        rw [if_neg hsv]
      rw [hstep, ih m hm icon]
      simp only [List.mem_cons]
      constructor
      · rintro (h | ⟨g, hg, hgs, hgi⟩)
        · exact Or.inl h
        · exact Or.inr ⟨g, Or.inr hg, hgs, hgi⟩
      · rintro (h | ⟨g, (rfl | hg), hgs, hgi⟩)
        · exact Or.inl h
        · exact absurd hgs hsv
        · exact Or.inr ⟨g, hg, hgs, hgi⟩

/-- Membership characterisation of `getCurrentIconsFromComponents`. -/
theorem getCurrentIcons_mem (files : List String) (icon : IconIdentity) :
    icon ∈ getCurrentIconsFromComponents files ↔
      ∃ f ∈ files, isSvelteFileName f = true ∧
        iconOfStem ⟨stripSvelteSuffix f.data⟩ = some icon := by
  unfold getCurrentIconsFromComponents
  rw [foldl_scanStep_mem files [] (by intro p hp; cases hp) icon]
  simp

/-- On a list without ASCII uppercase letters, the dash-inserting replacement
of `componentNameToBaseName` is the identity. -/
theorem insertDashes_no_upper (first : Bool) (l : List Char)
    (h : ∀ c ∈ l, isUpperCh c = false) : insertDashes first l = l := by
  induction l generalizing first with
  | nil => rfl
  | cons c rest ih =>
    unfold insertDashes
    rw [h c (List.mem_cons_self c rest), ih false (fun d hd => h d (List.mem_cons_of_mem c hd))]
    simp

/-- Dropping one leading hyphen does nothing when the head is not a hyphen. -/
theorem stripOneDash_cons {c : Char} (t : List Char) (h : c ≠ '-') :
    stripOneDash (c :: t) = c :: t := by
  unfold stripOneDash
  split
  · next heq =>
    injection heq with h1 _
    exact absurd h1 h
  · rfl

/-- C10 counterexample: the scanner does not accept every `.svelte` entry with
a non-empty stem — the stem `-` recovers to the empty base name and is
skipped — and for an uppercase-free stem that begins with `-` the returned
component identifier is not the base name. -/
theorem getCurrentIcons_cx :
    getCurrentIconsFromComponents ["-.svelte"] = [] ∧
    getCurrentIconsFromComponents ["-a.svelte"] =
      [{ baseName := "a", componentName := "-a" }] := by
  refine ⟨by decide, by decide⟩

/-- C10 amended: the scanner accepts exactly the directory entries ending
case-insensitively in `.svelte` whose stem recovers to a non-empty base name
(the empty stem and the stem `-` are the rejects), and takes the stem
verbatim as the component identifier without verifying that it is the
PascalCase derivation of the recovered base name; for a stem with no
uppercase letter and no leading hyphen the recovered base name equals the
stem, so the returned identity has componentIdentifier equal to its
baseName; and such non-well-formed identities flow into the aggregate
artifacts (shown on `arrow-left.svelte`). -/
theorem getCurrentIcons_spec :
    (∀ (files : List String) (icon : IconIdentity),
      icon ∈ getCurrentIconsFromComponents files ↔
        ∃ f ∈ files, isSvelteFileName f = true ∧
          iconOfStem ⟨stripSvelteSuffix f.data⟩ = some icon) ∧
    (∀ l : List Char, l ≠ [] → (∀ c ∈ l, isUpperCh c = false) → l.head? ≠ some '-' →
      iconOfStem ⟨l⟩ = some { baseName := ⟨l⟩, componentName := ⟨l⟩ }) ∧
    uniqueIconBaseNames (getCurrentIconsFromComponents ["arrow-left.svelte"]) = ["arrow-left"] ∧
    iconMapContent (getCurrentIconsFromComponents ["arrow-left.svelte"]) =
      "  \x27arrow-left\x27: \x27arrow-left\x27," := by
  refine ⟨getCurrentIcons_mem, ?_, by decide, by decide⟩
  intro l hne hnu hh
  cases l with
  | nil => exact absurd rfl hne
  | cons c t =>
    have hc : c ≠ '-' := by
      intro hc
      rw [hc] at hh
      exact hh rfl
    unfold iconOfStem componentNameToBaseName
    rw [if_neg (mk_ne_empty hne)]
    rw [show (⟨c :: t⟩ : String).data = c :: t from rfl]
    rw [insertDashes_no_upper true (c :: t) hnu, stripOneDash_cons t hc]
    rw [show (some (⟨c :: t⟩ : String) : Option String) = some ⟨c :: t⟩ from rfl]
    simp only []
    rw [if_neg (mk_ne_empty hne)]

/-- C5: in regenerate mode the script rebuilds both aggregate artifacts (the
type-definition text and the loader text) purely from scanning the current
components directory — the output is a function of the scan result alone —
and on a directory containing exactly `ArrowLeft.svelte` and
`LogoMain.svelte` the type artifact's union lists exactly the base names
`arrow-left` and `logo-main`, and its map pairs them with `ArrowLeft` and
`LogoMain` respectively. -/
theorem regenerate_spec :
    (∀ files₁ files₂ : List String,
      getCurrentIconsFromComponents files₁ = getCurrentIconsFromComponents files₂ →
      regenerateFilesFromComponents files₁ = regenerateFilesFromComponents files₂) ∧
    uniqueIconBaseNames (getCurrentIconsFromComponents ["ArrowLeft.svelte", "LogoMain.svelte"]) =
      ["arrow-left", "logo-main"] ∧
    (sortIcons (getCurrentIconsFromComponents ["ArrowLeft.svelte", "LogoMain.svelte"])).map
        (fun i => (i.baseName, i.componentName)) =
      [("arrow-left", "ArrowLeft"), ("logo-main", "LogoMain")] ∧
    regenerateFilesFromComponents ["ArrowLeft.svelte", "LogoMain.svelte"] =
      some (typeContent (getCurrentIconsFromComponents ["ArrowLeft.svelte", "LogoMain.svelte"]),
        createSvgIconLoaderComponent) := by
  refine ⟨?_, by decide, by decide, ?_⟩
  · intro files₁ files₂ h
    unfold regenerateFilesFromComponents
    rw [h]
  · unfold regenerateFilesFromComponents
    rw [if_neg (by decide)]

/-- The code-point comparison is total. -/
theorem listCharLe_total : ∀ a b : List Char, listCharLe a b = true ∨ listCharLe b a = true := by
  intro a
  induction a with
  | nil => intro b; exact Or.inl rfl
  | cons x xs ih =>
    intro b
    cases b with
    | nil => exact Or.inr rfl
    | cons y ys =>
      unfold listCharLe
      rcases Nat.lt_trichotomy x.toNat y.toNat with h | h | h
      · left
        simp [h]
      · rcases ih ys with h2 | h2
        · left
          simp [h, h2, Nat.lt_irrefl]
        · right
          simp [h, h2, Nat.lt_irrefl]
      · right
        simp [h]

/-- The code-point comparison is reflexive. -/
theorem listCharLe_refl : ∀ a : List Char, listCharLe a a = true := by
  intro a
  induction a with
  | nil => rfl
  | cons x xs ih =>
    unfold listCharLe
    simp [Nat.lt_irrefl, ih]

/-- The code-point comparison is transitive. -/
theorem listCharLe_trans :
    ∀ a b c : List Char, listCharLe a b = true → listCharLe b c = true →
      listCharLe a c = true := by
  intro a
  induction a with
  | nil => intro b c _ _; rfl
  | cons x xs ih =>
    intro b c hab hbc
    cases b with
    | nil => simp [listCharLe] at hab
    | cons y ys =>
      cases c with
      | nil => simp [listCharLe] at hbc
      | cons z zs =>
        unfold listCharLe at hab hbc ⊢
        rcases Nat.lt_trichotomy x.toNat y.toNat with h1 | h1 | h1 <;>
          rcases Nat.lt_trichotomy y.toNat z.toNat with h2 | h2 | h2
        · simp [Nat.lt_trans h1 h2]
        · rw [← h2]
          simp [h1]
        · simp [h1, Nat.lt_asymm h1, Nat.lt_irrefl] at hab ⊢
          simp [h2, Nat.lt_asymm h2, Nat.lt_irrefl] at hbc
        · rw [h1]
          simp [h2]
        · rw [h1, h2]
          rw [h1] at hab
          rw [h2] at hbc
          simp [Nat.lt_irrefl] at hab hbc ⊢
          exact ih ys zs hab hbc
        · rw [h1] at hab ⊢
          simp [Nat.lt_asymm h2, Nat.lt_irrefl, h2] at hbc
        · simp [Nat.lt_asymm h1, Nat.lt_irrefl, h1] at hab
        · simp [Nat.lt_asymm h1, Nat.lt_irrefl, h1] at hab
        · simp [Nat.lt_asymm h1, Nat.lt_irrefl, h1] at hab

/-- The code-point comparison is antisymmetric. -/
theorem listCharLe_antisymm :
    ∀ a b : List Char, listCharLe a b = true → listCharLe b a = true → a = b := by
  intro a
  induction a with
  | nil =>
    intro b _ hba
    cases b with
    | nil => rfl
    | cons y ys => simp [listCharLe] at hba
  | cons x xs ih =>
    intro b hab hba
    cases b with
    | nil => simp [listCharLe] at hab
    | cons y ys =>
      unfold listCharLe at hab hba
      rcases Nat.lt_trichotomy x.toNat y.toNat with h | h | h
      · simp [h, Nat.lt_asymm h, Nat.lt_irrefl] at hba
      · rw [h] at hab hba
        simp [Nat.lt_irrefl] at hab hba
        rw [char_toNat_inj h, ih ys hab hba]
      · simp [h, Nat.lt_asymm h, Nat.lt_irrefl] at hab

instance : IsTotal IconIdentity baseLe :=
  ⟨fun a b => listCharLe_total a.baseName.data b.baseName.data⟩

instance : IsTrans IconIdentity baseLe :=
  ⟨fun a b c => listCharLe_trans a.baseName.data b.baseName.data c.baseName.data⟩

instance : IsTotal String nameLe :=
  ⟨fun a b => listCharLe_total a.data b.data⟩

instance : IsTrans String nameLe :=
  ⟨fun a b c => listCharLe_trans a.data b.data c.data⟩

instance : IsAntisymm String nameLe :=
  ⟨fun a b hab hba => String.ext (listCharLe_antisymm a.data b.data hab hba)⟩

/-- The sort of the icon aggregation is sorted by base name. -/
theorem sortIcons_sorted (icons : List IconIdentity) : List.Sorted baseLe (sortIcons icons) :=
  List.sorted_insertionSort baseLe icons

/-- The sort of the icon aggregation is a permutation of its input. -/
theorem sortIcons_perm (icons : List IconIdentity) : (sortIcons icons).Perm icons :=
  List.perm_insertionSort baseLe icons

/-- The default-comparator sort on names is sorted. -/
theorem sortNames_sorted (names : List String) : List.Sorted nameLe (sortNames names) :=
  List.sorted_insertionSort nameLe names

/-- The default-comparator sort on names is a permutation of its input. -/
theorem sortNames_perm (names : List String) : (sortNames names).Perm names :=
  List.perm_insertionSort nameLe names

/-- Looking a key up in a one-longer map. -/
theorem mapLookup_cons {α : Type} (q : String × α) (m : List (String × α)) (k : String) :
    mapLookup (q :: m) k = if q.1 = k then some q.2 else mapLookup m k := by
  unfold mapLookup
  by_cases h : q.1 = k
  · rw [List.find?_cons_of_pos _ (by simpa using h), if_pos h]
    rfl
  · rw [List.find?_cons_of_neg _ (by simpa using h), if_neg h]

/-- A successful lookup means the key is present. -/
theorem mapLookup_mem_keys {α : Type} (m : List (String × α)) (k : String) (v : α)
    (h : mapLookup m k = some v) : k ∈ mapKeys m := by
  unfold mapLookup at h
  cases hf : m.find? (fun p => p.1 = k) with
  | none => rw [hf] at h; cases h
  | some q =>
    have hq := List.find?_some hf
    have hqk : q.1 = k := of_decide_eq_true hq
    rw [← hqk]
    exact List.mem_map_of_mem Prod.fst (List.mem_of_find?_eq_some hf)

/-- A present key makes the lookup succeed. -/
theorem mapLookup_isSome_of_any {α : Type} (m : List (String × α)) (k : String)
    (h : m.any (fun p => p.1 = k) = true) : (mapLookup m k).isSome = true := by
  rcases List.any_eq_true.mp h with ⟨p, hp, hpk⟩
  induction m with
  | nil => cases hp
  | cons q m ih =>
    rw [mapLookup_cons]
    by_cases hq : q.1 = k
    · rw [if_pos hq]
      rfl
    · rw [if_neg hq]
      rcases List.mem_cons.mp hp with rfl | hp'
      · exact absurd (of_decide_eq_true hpk) hq
      · exact ih (List.any_eq_true.mpr ⟨p, hp', hpk⟩) hp'

/-- Lookup after the in-place replacement branch of `jsMapSet`. -/
theorem mapLookup_map_repl {α : Type} (k k' : String) (v : α) :
    ∀ m : List (String × α),
      mapLookup (m.map (fun p => if p.1 = k then (k, v) else p)) k' =
        if k' = k then (mapLookup m k).map (fun _ => v) else mapLookup m k' := by
  intro m
  induction m with
  | nil =>
    by_cases h : k' = k <;> simp [mapLookup, h]
  | cons p m ih =>
    rw [List.map_cons,
      mapLookup_cons (if p.1 = k then (k, v) else p)
        (m.map (fun p => if p.1 = k then (k, v) else p)) k',
      mapLookup_cons p m k, mapLookup_cons p m k']
    by_cases hpk : p.1 = k
    · simp only [if_pos hpk]
      by_cases hk' : k' = k
      · rw [if_pos (show (k, v).1 = k' from hk'.symm), if_pos hk']
        rfl
      · rw [if_neg (show ¬(k, v).1 = k' from fun hc => hk' hc.symm), ih, if_neg hk',
          if_neg hk', if_neg (show ¬p.1 = k' from by rw [hpk]; exact fun hc => hk' hc.symm)]
    · simp only [if_neg hpk]
      by_cases hk' : k' = k
      · have hp2 : ¬p.1 = k' := fun hc => hpk (hc.trans hk')
        rw [if_neg hp2, ih, if_pos hk', if_pos hk']
      · by_cases hpk' : p.1 = k'
        · rw [if_pos hpk', if_neg hk', if_pos hpk']
        · rw [if_neg hpk', ih, if_neg hk', if_neg hk', if_neg hpk']

/-- Lookup after a `Map.set`: the set key now maps to the new value, every
other key is untouched. -/
theorem mapLookup_jsMapSet {α : Type} (m : List (String × α)) (k k' : String) (v : α) :
    mapLookup (jsMapSet m k v) k' = if k' = k then some v else mapLookup m k' := by
  unfold jsMapSet
  by_cases hany : m.any (fun p => p.1 = k) = true
  · rw [if_pos hany, mapLookup_map_repl]
    by_cases hk' : k' = k
    · rw [if_pos hk', if_pos hk']
      have hs := mapLookup_isSome_of_any m k hany
      cases hl : mapLookup m k with
      | none => rw [hl] at hs; cases hs
      | some w => rfl
    · rw [if_neg hk', if_neg hk']
  · rw [if_neg hany]
    unfold mapLookup
    rw [List.find?_append]
    by_cases hk' : k' = k
    · have hnone : m.find? (fun p => p.1 = k') = none := by
        rw [List.find?_eq_none]
        intro p hp hpk
        exact hany (List.any_eq_true.mpr ⟨p, hp, by rw [hk'] at hpk; exact hpk⟩)
      rw [hnone, if_pos hk']
      simp [List.find?, hk'.symm]
    · have htail : List.find? (fun p => p.1 = k') [(k, v)] = none := by
        have hkk : ¬k = k' := fun hc => hk' hc.symm
        simp [List.find?, decide_eq_false hkk]
      rw [htail, if_neg hk']
      cases m.find? (fun p => p.1 = k') <;> rfl

/-- The keys after a `Map.set`: unchanged when the key was present, the key
appended otherwise. -/
theorem mapKeys_jsMapSet {α : Type} (m : List (String × α)) (k : String) (v : α) :
    mapKeys (jsMapSet m k v) =
      if m.any (fun p => p.1 = k) then mapKeys m else mapKeys m ++ [k] := by
  unfold jsMapSet
  by_cases hany : m.any (fun p => p.1 = k) = true
  · rw [if_pos hany, if_pos hany]
    unfold mapKeys
    rw [List.map_map]
    apply List.map_congr_left
    intro p hp
    by_cases hpk : p.1 = k
    · simp [hpk]
    · simp [hpk]
  · rw [if_neg hany, if_neg hany]
    unfold mapKeys
    rw [List.map_append]
    rfl

/-- A present key is one of `mapKeys`. -/
theorem any_key_iff {α : Type} (m : List (String × α)) (k : String) :
    m.any (fun p => p.1 = k) = true ↔ k ∈ mapKeys m := by
  rw [List.any_eq_true]
  constructor
  · rintro ⟨p, hp, hpk⟩
    rw [← of_decide_eq_true hpk]
    exact List.mem_map_of_mem Prod.fst hp
  · intro h
    rcases List.mem_map.mp h with ⟨p, hp, hpk⟩
    exact ⟨p, hp, by simpa using hpk⟩

/-- `Map.set` keeps the keys duplicate-free. -/
theorem mapKeys_jsMapSet_nodup {α : Type} (m : List (String × α)) (k : String) (v : α)
    (h : (mapKeys m).Nodup) : (mapKeys (jsMapSet m k v)).Nodup := by
  rw [mapKeys_jsMapSet]
  by_cases hany : m.any (fun p => p.1 = k) = true
  · rw [if_pos hany]
    exact h
  · rw [if_neg hany]
    have hk : k ∉ mapKeys m := fun hc => hany ((any_key_iff m k).mpr hc)
    simpa [List.nodup_append] using ⟨h, hk⟩

/-- `Map.set` with a value that carries its own key preserves the invariant
that every entry's value carries the entry's key. -/
theorem jsMapSet_keyed {α : Type} (key : α → String) (m : List (String × α)) (k : String)
    (v : α) (hm : ∀ p ∈ m, key p.2 = p.1) (hv : key v = k) :
    ∀ p ∈ jsMapSet m k v, key p.2 = p.1 := by
  unfold jsMapSet
  by_cases hany : m.any (fun p => p.1 = k) = true
  · rw [if_pos hany]
    intro p hp
    rcases List.mem_map.mp hp with ⟨q, hq, hqe⟩
    by_cases hqk : q.1 = k
    · rw [if_pos hqk] at hqe
      rw [← hqe]
      exact hv
    · rw [if_neg hqk] at hqe
      rw [← hqe]
      exact hm q hq
  · rw [if_neg hany]
    intro p hp
    rcases List.mem_append.mp hp with hp | hp
    · exact hm p hp
    · simp only [List.mem_singleton] at hp
      rw [hp]
      exact hv

/-- Left-biased choice is associative. -/
theorem oOr_assoc {α : Type} (a b c : Option α) : oOr (oOr a b) c = oOr a (oOr b c) := by
  cases a <;> rfl

/-- `none` is a right unit of the left-biased choice. -/
theorem oOr_none_right {α : Type} (a : Option α) : oOr a none = a := by
  cases a <;> rfl

/-- The last value set for a key, over a one-longer insertion sequence. -/
theorem lastWithKey_cons (i : IconIdentity) (rest : List IconIdentity) (k : String) :
    lastWithKey (i :: rest) k =
      oOr (lastWithKey rest k) (if i.componentName = k then some i else none) := by
  unfold lastWithKey
  rw [List.reverse_cons, List.find?_append]
  have hone : List.find? (fun j => j.componentName = k) [i] =
      if i.componentName = k then some i else none := by
    by_cases h : i.componentName = k
    · simp [List.find?, h]
    · rw [if_neg h]
      simp [List.find?, decide_eq_false h]
  rw [hone]
  cases rest.reverse.find? (fun j => j.componentName = k) <;> rfl

/-- Lookup after the insertion loop: the last inserted icon with the key wins,
falling back to the original map. -/
theorem mapLookup_insertIcons (icons : List IconIdentity) :
    ∀ (m : List (String × IconIdentity)) (k : String),
      mapLookup (insertIcons m icons) k = oOr (lastWithKey icons k) (mapLookup m k) := by
  induction icons with
  | nil => intro m k; rfl
  | cons i rest ih =>
    intro m k
    show mapLookup (insertIcons (jsMapSet m i.componentName i) rest) k = _
    rw [ih, mapLookup_jsMapSet, lastWithKey_cons, oOr_assoc]
    congr 1
    by_cases h : i.componentName = k
    · rw [if_pos h, if_pos h.symm]
      rfl
    · rw [if_neg h, if_neg (fun hc => h hc.symm)]
      rfl

/-- The insertion loop keeps the keys duplicate-free. -/
theorem insertIcons_keys_nodup (icons : List IconIdentity) :
    ∀ m : List (String × IconIdentity), (mapKeys m).Nodup →
      (mapKeys (insertIcons m icons)).Nodup := by
  induction icons with
  | nil => intro m h; exact h
  | cons i rest ih =>
    intro m h
    exact ih _ (mapKeys_jsMapSet_nodup m i.componentName i h)

/-- The insertion loop keeps every entry's value carrying the entry's key. -/
theorem insertIcons_keyed (icons : List IconIdentity) :
    ∀ m : List (String × IconIdentity), (∀ p ∈ m, p.2.componentName = p.1) →
      ∀ p ∈ insertIcons m icons, p.2.componentName = p.1 := by
  induction icons with
  | nil => intro m h; exact h
  | cons i rest ih =>
    intro m h
    exact ih _ (jsMapSet_keyed (fun j => j.componentName) m i.componentName i h rfl)

/-- In a key-consistent duplicate-free map, an icon is among the values
exactly when looking its own component name up returns it. -/
theorem mem_values_iff_lookup (m : List (String × IconIdentity))
    (hkeyed : ∀ p ∈ m, p.2.componentName = p.1) (hnd : (mapKeys m).Nodup)
    (icon : IconIdentity) :
    icon ∈ m.map Prod.snd ↔ mapLookup m icon.componentName = some icon := by
  induction m with
  | nil => simp [mapLookup, List.find?]
  | cons p m ih =>
    have hp : p.2.componentName = p.1 := hkeyed p (List.mem_cons_self p m)
    have hkeyed' : ∀ q ∈ m, q.2.componentName = q.1 :=
      fun q hq => hkeyed q (List.mem_cons_of_mem p hq)
    have hnd0 : p.1 ∉ mapKeys m ∧ (mapKeys m).Nodup := by
      have : mapKeys (p :: m) = p.1 :: mapKeys m := rfl
      rw [this] at hnd
      exact List.nodup_cons.mp hnd
    rw [List.map_cons, mapLookup_cons]
    constructor
    · intro h
      rcases List.mem_cons.mp h with rfl | h
      · rw [if_pos hp.symm]
      · have hl := (ih hkeyed' hnd0.2).mp h
        have hkm : icon.componentName ∈ mapKeys m := mapLookup_mem_keys m _ icon hl
        have hne : ¬p.1 = icon.componentName := fun hc => hnd0.1 (hc ▸ hkm)
        rw [if_neg hne]
        exact hl
    · intro h
      by_cases hc : p.1 = icon.componentName
      · rw [if_pos hc] at h
        have h2 : p.2 = icon := by injection h
        exact h2 ▸ List.mem_cons_self p.2 (m.map Prod.snd)
      · rw [if_neg hc] at h
        exact List.mem_cons_of_mem _ ((ih hkeyed' hnd0.2).mpr h)

/-- In a key-consistent map, mapping the values to their component names
gives the keys. -/
theorem values_comp_eq_keys (m : List (String × IconIdentity))
    (hkeyed : ∀ p ∈ m, p.2.componentName = p.1) :
    (m.map Prod.snd).map (fun i => i.componentName) = mapKeys m := by
  rw [List.map_map]
  exact List.map_congr_left hkeyed

/-- Inserting icons with pairwise fresh, duplicate-free keys appends their
values in order. -/
theorem insertIcons_values_fresh :
    ∀ (icons : List IconIdentity) (m : List (String × IconIdentity)),
      ((icons.map (fun i => i.componentName)).Nodup) →
      (∀ i ∈ icons, i.componentName ∉ mapKeys m) →
      (insertIcons m icons).map Prod.snd = m.map Prod.snd ++ icons := by
  intro icons
  induction icons with
  | nil => intro m _ _; simp [insertIcons]
  | cons i rest ih =>
    intro m hnd hfresh
    have hany : ¬m.any (fun p => p.1 = i.componentName) = true := by
      intro hc
      exact hfresh i (List.mem_cons_self i rest) ((any_key_iff m _).mp hc)
    have hset : jsMapSet m i.componentName i = m ++ [(i.componentName, i)] := by
      unfold jsMapSet
      rw [if_neg hany]
    have hnd' : (rest.map (fun i => i.componentName)).Nodup := (List.nodup_cons.mp hnd).2
    have hhd : i.componentName ∉ rest.map (fun i => i.componentName) :=
      (List.nodup_cons.mp hnd).1
    have hfresh' : ∀ j ∈ rest, j.componentName ∉ mapKeys (m ++ [(i.componentName, i)]) := by
      intro j hj hc
      have : mapKeys (m ++ [(i.componentName, i)]) = mapKeys m ++ [i.componentName] := by
        unfold mapKeys
        rw [List.map_append]
        rfl
      rw [this] at hc
      rcases List.mem_append.mp hc with hc | hc
      · exact hfresh j (List.mem_cons_of_mem i hj) hc
      · simp only [List.mem_singleton] at hc
        exact hhd (hc ▸ List.mem_map_of_mem (fun i => i.componentName) hj)
    show (insertIcons (jsMapSet m i.componentName i) rest).map Prod.snd = _
    rw [hset, ih _ hnd' hfresh', List.map_append]
    simp

/-- C2: the merge step builds a map keyed by componentIdentifier with existing
inserted first and incoming overwriting on key collision (the looked-up value
for any key is the last incoming icon with that key, else the last existing
one — incoming wins), and returns the map's values sorted ascending by
baseName under the (code-point–modelled) comparator on the lower-cased names;
the output has no duplicate componentIdentifier, membership is exactly
map-lookup success, and merging two entries with the same identifier keeps
the incoming entry. -/
theorem mergeIcons_spec :
    (∀ e n : List IconIdentity, List.Sorted baseLe (mergeIcons e n)) ∧
    (∀ e n : List IconIdentity,
      ((mergeIcons e n).map (fun i => i.componentName)).Nodup) ∧
    (∀ (e n : List IconIdentity) (k : String),
      mapLookup (allIconsMap e n) k = oOr (lastWithKey n k) (lastWithKey e k)) ∧
    (∀ (e n : List IconIdentity) (icon : IconIdentity),
      icon ∈ mergeIcons e n ↔
        mapLookup (allIconsMap e n) icon.componentName = some icon) ∧
    mergeIcons [{ baseName := "old", componentName := "A" }]
        [{ baseName := "old", componentName := "A" }] =
      [{ baseName := "old", componentName := "A" }] ∧
    mergeIcons [{ baseName := "old", componentName := "A" }]
        [{ baseName := "new", componentName := "A" }] =
      [{ baseName := "new", componentName := "A" }] := by
  have hkeyed : ∀ e n : List IconIdentity, ∀ p ∈ allIconsMap e n, p.2.componentName = p.1 := by
    intro e n
    exact insertIcons_keyed n _ (insertIcons_keyed e [] (by intro p hp; cases hp))
  have hnd : ∀ e n : List IconIdentity, (mapKeys (allIconsMap e n)).Nodup := by
    intro e n
    exact insertIcons_keys_nodup n _ (insertIcons_keys_nodup e [] List.nodup_nil)
  refine ⟨fun e n => sortIcons_sorted _, ?_, ?_, ?_, by decide, by decide⟩
  · intro e n
    have hperm : ((mergeIcons e n).map (fun i => i.componentName)).Perm
        (((allIconsMap e n).map Prod.snd).map (fun i => i.componentName)) :=
      (sortIcons_perm _).map _
    rw [hperm.nodup_iff, values_comp_eq_keys _ (hkeyed e n)]
    exact hnd e n
  · intro e n k
    unfold allIconsMap
    rw [mapLookup_insertIcons, mapLookup_insertIcons,
      show mapLookup ([] : List (String × IconIdentity)) k = none from rfl, oOr_none_right]
  · intro e n icon
    unfold mergeIcons
    rw [(sortIcons_perm _).mem_iff]
    exact mem_values_iff_lookup _ (hkeyed e n) (hnd e n) icon

/-- C9: merging an icon set with pairwise distinct componentIdentifiers with
an empty incoming sequence gives the set sorted by baseName, and so does
merging an empty existing sequence with the set. -/
theorem mergeIcons_identity (X : List IconIdentity)
    (h : (X.map (fun i => i.componentName)).Nodup) :
    mergeIcons X [] = sortIcons X ∧ mergeIcons [] X = sortIcons X := by
  have hvals : (insertIcons [] X).map Prod.snd = X := by
    rw [insertIcons_values_fresh X [] h (by intro i _ hc; cases hc)]
    rfl
  constructor
  · show sortIcons ((insertIcons (insertIcons [] X) []).map Prod.snd) = _
    show sortIcons ((insertIcons [] X).map Prod.snd) = _
    rw [hvals]
  · show sortIcons ((insertIcons (insertIcons [] []) X).map Prod.snd) = _
    show sortIcons ((insertIcons [] X).map Prod.snd) = _
    rw [hvals]

/-- C9 witness: a concrete two-icon set with distinct identifiers, merged with
the empty set on either side. -/
theorem mergeIcons_identity_witness :
    (([{ baseName := "b", componentName := "B" }, { baseName := "a", componentName := "A" }].map
        (fun i : IconIdentity => i.componentName)).Nodup) ∧
    mergeIcons
        [{ baseName := "b", componentName := "B" }, { baseName := "a", componentName := "A" }] [] =
      sortIcons
        [{ baseName := "b", componentName := "B" }, { baseName := "a", componentName := "A" }] ∧
    mergeIcons []
        [{ baseName := "b", componentName := "B" }, { baseName := "a", componentName := "A" }] =
      sortIcons
        [{ baseName := "b", componentName := "B" }, { baseName := "a", componentName := "A" }] :=
  ⟨by decide,
   (mergeIcons_identity
     [{ baseName := "b", componentName := "B" }, { baseName := "a", componentName := "A" }]
     (by decide)).1,
   (mergeIcons_identity
     [{ baseName := "b", componentName := "B" }, { baseName := "a", componentName := "A" }]
     (by decide)).2⟩

/-- Membership in the de-duplication accumulator. -/
theorem jsSetDedupAux_mem :
    ∀ (l : List String) (seen : List String) (x : String),
      x ∈ jsSetDedupAux seen l ↔ x ∈ l ∧ x ∉ seen := by
  intro l
  induction l with
  | nil => intro seen x; simp [jsSetDedupAux]
  | cons a rest ih =>
    intro seen x
    unfold jsSetDedupAux
    by_cases ha : a ∈ seen
    · rw [if_pos ha, ih]
      constructor
      · rintro ⟨hx, hs⟩
        exact ⟨List.mem_cons_of_mem a hx, hs⟩
      · rintro ⟨hx, hs⟩
        rcases List.mem_cons.mp hx with rfl | hx
        · exact absurd ha hs
        · exact ⟨hx, hs⟩
    · rw [if_neg ha]
      constructor
      · intro hx
        rcases List.mem_cons.mp hx with rfl | hx
        · exact ⟨List.mem_cons_self x rest, ha⟩
        · rcases (ih _ x).mp hx with ⟨h1, h2⟩
          refine ⟨List.mem_cons_of_mem a h1, fun hc => h2 ?_⟩
          exact List.mem_append_left _ hc
      · rintro ⟨hx, hs⟩
        by_cases hxa : x = a
        · exact hxa ▸ List.mem_cons_self a _
        · rcases List.mem_cons.mp hx with rfl | hx
          · exact absurd rfl hxa
          · refine List.mem_cons_of_mem a ((ih _ x).mpr ⟨hx, fun hc => ?_⟩)
            rcases List.mem_append.mp hc with hc | hc
            · exact hs hc
            · simp only [List.mem_singleton] at hc
              exact hxa hc

/-- The de-duplication accumulator emits no duplicates. -/
theorem jsSetDedupAux_nodup :
    ∀ (l : List String) (seen : List String), (jsSetDedupAux seen l).Nodup := by
  intro l
  induction l with
  | nil => intro seen; exact List.nodup_nil
  | cons a rest ih =>
    intro seen
    unfold jsSetDedupAux
    by_cases ha : a ∈ seen
    · rw [if_pos ha]
      exact ih seen
    · rw [if_neg ha]
      refine List.nodup_cons.mpr ⟨fun hc => ?_, ih _⟩
      rcases (jsSetDedupAux_mem rest (seen ++ [a]) a).mp hc with ⟨_, h2⟩
      exact h2 (List.mem_append_right _ (List.mem_singleton.mpr rfl))

/-- Membership in `[...new Set(xs)]` is membership in `xs`. -/
theorem jsSetDedup_mem (l : List String) (x : String) : x ∈ jsSetDedup l ↔ x ∈ l := by
  unfold jsSetDedup
  rw [jsSetDedupAux_mem]
  simp

/-- `[...new Set(xs)]` has no duplicates. -/
theorem jsSetDedup_nodup (l : List String) : (jsSetDedup l).Nodup :=
  jsSetDedupAux_nodup l []

/-- The sorted union of base names depends only on the multiset of icons:
it is sorted, duplicate-free, and its membership is base-name membership, so
a permutation of the input leaves it unchanged. -/
theorem uniqueIconBaseNames_mem (l : List IconIdentity) (b : String) :
    b ∈ uniqueIconBaseNames l ↔ b ∈ l.map (fun i => i.baseName) := by
  unfold uniqueIconBaseNames
  rw [(sortNames_perm _).mem_iff, jsSetDedup_mem]
  exact ((sortIcons_perm l).map (fun i => i.baseName)).mem_iff

/-- The sorted union of base names has no duplicates. -/
theorem uniqueIconBaseNames_nodup (l : List IconIdentity) : (uniqueIconBaseNames l).Nodup :=
  ((sortNames_perm _).nodup_iff).mpr (jsSetDedup_nodup _)

/-- The sorted union of base names is unchanged under permutation of the
icons. -/
theorem uniqueIconBaseNames_perm (l₁ l₂ : List IconIdentity) (hp : l₁.Perm l₂) :
    uniqueIconBaseNames l₁ = uniqueIconBaseNames l₂ := by
  have hmem : ∀ b, b ∈ uniqueIconBaseNames l₁ ↔ b ∈ uniqueIconBaseNames l₂ := by
    intro b
    rw [uniqueIconBaseNames_mem, uniqueIconBaseNames_mem]
    exact (hp.map (fun i => i.baseName)).mem_iff
  have hperm : (uniqueIconBaseNames l₁).Perm (uniqueIconBaseNames l₂) :=
    (List.perm_ext_iff_of_nodup (uniqueIconBaseNames_nodup l₁)
      (uniqueIconBaseNames_nodup l₂)).mpr hmem
  exact List.eq_of_perm_of_sorted hperm
    (sortNames_sorted _) (sortNames_sorted _)

/-- With pairwise distinct base names, sorting is permutation-invariant: the
ties that stability would order by input position cannot occur. -/
theorem sortIcons_eq_of_perm (l₁ l₂ : List IconIdentity) (hp : l₁.Perm l₂)
    (hnd : (l₁.map (fun i => i.baseName)).Nodup) : sortIcons l₁ = sortIcons l₂ := by
  have hperm : (sortIcons l₁).Perm (sortIcons l₂) :=
    (sortIcons_perm l₁).trans (hp.trans (sortIcons_perm l₂).symm)
  have hnd₁ : ((sortIcons l₁).map (fun i => i.baseName)).Nodup :=
    (((sortIcons_perm l₁).map (fun i => i.baseName)).nodup_iff).mpr hnd
  have hnd₂ : ((sortIcons l₂).map (fun i => i.baseName)).Nodup :=
    ((hperm.map (fun i => i.baseName)).nodup_iff).mp hnd₁
  have hpair : ∀ t : List IconIdentity, List.Sorted baseLe t →
      (t.map (fun i => i.baseName)).Nodup →
      List.Pairwise (fun a b : IconIdentity => baseLe a b ∧ a.baseName ≠ b.baseName) t := by
    intro t hs hn
    have hne : List.Pairwise (fun a b : IconIdentity => a.baseName ≠ b.baseName) t :=
      List.pairwise_map.mp hn
    exact hs.and hne
  have anti : IsAntisymm IconIdentity
      (fun a b : IconIdentity => baseLe a b ∧ a.baseName ≠ b.baseName) := by
    refine ⟨fun a b hab hba => ?_⟩
    exact absurd (String.ext (listCharLe_antisymm _ _ hab.1 hba.1)) hab.2
  exact @List.eq_of_perm_of_sorted _ _ anti _ _ hperm
    (hpair _ (sortIcons_sorted l₁) hnd₁) (hpair _ (sortIcons_sorted l₂) hnd₂)

set_option maxRecDepth 4000 in
/-- C7 counterexample: two distinct identities sharing the base name `a-b`
(both arise from scanning, e.g. files `AB.svelte` and `a-b.svelte`).  The two
orders are permutations of each other, yet the emitted type-artifact texts
differ (the stable sort keeps the tied entries in input order, so the
`iconMap` lines swap). -/
theorem typeContent_cx :
    ([{ baseName := "a-b", componentName := "AB" },
      { baseName := "a-b", componentName := "a-b" }] : List IconIdentity).Perm
      [{ baseName := "a-b", componentName := "a-b" },
       { baseName := "a-b", componentName := "AB" }] ∧
    typeContent
        [{ baseName := "a-b", componentName := "AB" },
         { baseName := "a-b", componentName := "a-b" }] ≠
      typeContent
        [{ baseName := "a-b", componentName := "a-b" },
         { baseName := "a-b", componentName := "AB" }] := by
  refine ⟨by decide, by decide⟩

/-- C7 amended: the type-artifact text is a deterministic pure function of the
supplied icon sequence (re-running on the same sequence is byte-identical),
and it is order-independent whenever the identities carry pairwise distinct
baseNames: any permutation then yields byte-identical text.  The emitted
union is always permutation-invariant, sorted, duplicate-free and covers
exactly the baseNames; the mapping literal covers every entry, mapping each
baseName to its componentIdentifier via its line. -/
theorem typeContent_spec :
    (∀ l₁ l₂ : List IconIdentity, l₁.Perm l₂ →
      (l₁.map (fun i => i.baseName)).Nodup → typeContent l₁ = typeContent l₂) ∧
    (∀ l₁ l₂ : List IconIdentity, l₁.Perm l₂ →
      uniqueIconBaseNames l₁ = uniqueIconBaseNames l₂) ∧
    (∀ (l : List IconIdentity) (i : IconIdentity), i ∈ l →
      i.baseName ∈ uniqueIconBaseNames l ∧ iconMapLine i ∈ (sortIcons l).map iconMapLine) ∧
    (∀ l : List IconIdentity,
      List.Sorted nameLe (uniqueIconBaseNames l) ∧ (uniqueIconBaseNames l).Nodup) ∧
    (∀ (l : List IconIdentity) (b : String),
      b ∈ uniqueIconBaseNames l ↔ b ∈ l.map (fun i => i.baseName)) := by
  refine ⟨?_, uniqueIconBaseNames_perm, ?_, fun l => ⟨sortNames_sorted _, uniqueIconBaseNames_nodup l⟩,
    uniqueIconBaseNames_mem⟩
  · intro l₁ l₂ hp hnd
    unfold typeContent iconMapContent
    rw [uniqueIconBaseNames_perm l₁ l₂ hp, sortIcons_eq_of_perm l₁ l₂ hp hnd]
  · intro l i hi
    refine ⟨(uniqueIconBaseNames_mem l i.baseName).mpr (List.mem_map_of_mem _ hi), ?_⟩
    exact List.mem_map_of_mem iconMapLine ((sortIcons_perm l).mem_iff.mpr hi)

/-- A present key's lookup succeeds. -/
theorem mapLookup_isSome_of_mem_keys {α : Type} (m : List (String × α)) (k : String)
    (h : k ∈ mapKeys m) : (mapLookup m k).isSome = true :=
  mapLookup_isSome_of_any m k ((any_key_iff m k).mpr h)

/-- Two sources with the same target path have the same component name. -/
theorem svePath_inj {a b : Source} (h : svePath a = svePath b) :
    a.componentName = b.componentName := by
  have h2 := congrArg String.data h
  unfold svePath at h2
  rw [String.data_append, String.data_append] at h2
  exact String.ext (List.append_cancel_right h2)

/-- The frame invariant of the main loop without `--clean`, tracked for a
component name `N` whose target file pre-exists: files present at the start
keep their contents (conflicting targets are queued, never written), their
keys stay present, and no source named `N` is ever written (so `N` never
enters the processed set and no newly-generated icon carries it). -/
def MainInv (fs₀ : List (String × String)) (N : String) (st : RunState) : Prop :=
  (∀ k ∈ mapKeys fs₀, mapLookup st.fs k = mapLookup fs₀ k) ∧
  (∀ k ∈ mapKeys fs₀, k ∈ mapKeys st.fs) ∧
  N ∉ st.processedComponentNamesInRun ∧
  (∀ i ∈ st.newlyGeneratedIcons, i.componentName ≠ N)

/-- One main-loop step preserves the frame invariant (without `--clean`). -/
theorem mainStep_inv (render : Source → Option String) (fs₀ : List (String × String))
    (N : String) (hN : (N ++ ".svelte") ∈ mapKeys fs₀) (st : RunState) (s : Source)
    (h : MainInv fs₀ N st) : MainInv fs₀ N (mainStep render false st s) := by
  obtain ⟨hP1, hP2, hQ1, hQ2⟩ := h
  unfold mainStep
  by_cases hdup : s.componentName ∈ st.processedComponentNamesInRun
  · rw [if_pos hdup]
    exact ⟨hP1, hP2, hQ1, hQ2⟩
  · rw [if_neg hdup]
    by_cases hex : targetFileOnDisk false st.fs s = true
    · rw [if_pos hex]
      exact ⟨hP1, hP2, hQ1, hQ2⟩
    · rw [if_neg hex]
      have hex2 : (mapLookup st.fs (svePath s)).isSome = false := by
        unfold targetFileOnDisk at hex
        simpa using hex
      have hpath : svePath s ∉ mapKeys fs₀ := by
        intro hc
        rw [mapLookup_isSome_of_mem_keys st.fs (svePath s) (hP2 _ hc)] at hex2
        cases hex2
      have hcompN : s.componentName ≠ N := by
        intro hc
        exact hpath (by rw [show svePath s = N ++ ".svelte" by unfold svePath; rw [hc]]; exact hN)
      cases hr : render s with
      | some content =>
        refine ⟨?_, ?_, ?_, ?_⟩
        · intro k hk
          rw [mapLookup_jsMapSet,
            if_neg (show ¬k = svePath s from fun hc => hpath (hc ▸ hk))]
          exact hP1 k hk
        · intro k hk
          rw [mapKeys_jsMapSet]
          by_cases hany : st.fs.any (fun p => p.1 = svePath s) = true
          · rw [if_pos hany]
            exact hP2 k hk
          · rw [if_neg hany]
            exact List.mem_append_left _ (hP2 k hk)
        · intro hc
          rcases List.mem_append.mp hc with hc | hc
          · exact hQ1 hc
          · simp only [List.mem_singleton] at hc
            exact hcompN hc.symm
        · intro i hi
          rcases List.mem_append.mp hi with hi | hi
          · exact hQ2 i hi
          · simp only [List.mem_singleton] at hi
            rw [hi]
            exact hcompN
      | none => exact ⟨hP1, hP2, hQ1, hQ2⟩

/-- The frame invariant holds after the whole main loop (without `--clean`). -/
theorem mainLoop_inv (render : Source → Option String) (fs₀ : List (String × String))
    (N : String) (hN : (N ++ ".svelte") ∈ mapKeys fs₀) (sources : List Source) :
    MainInv fs₀ N (mainLoop render false fs₀ sources) := by
  unfold mainLoop
  have hbase : MainInv fs₀ N (initState fs₀) := by
    refine ⟨fun k _ => rfl, fun k hk => hk, ?_, ?_⟩
    · intro hc
      cases hc
    · intro i hi
      cases hi
  generalize hst : initState fs₀ = st₀ at hbase
  clear hst
  induction sources generalizing st₀ with
  | nil => exact hbase
  | cons s rest ih =>
    rw [List.foldl_cons]
    exact ih _ (mainStep_inv render fs₀ N hN st₀ s hbase)

/-- Declining the batch conflict prompt leaves the state of the main loop
untouched. -/
theorem processRun_decline (render : Source → Option String) (clean : Bool)
    (fs₀ : List (String × String)) (sources : List Source) :
    (processRun render clean false fs₀ sources).1 = mainLoop render clean fs₀ sources := by
  unfold processRun
  by_cases h : (mainLoop render clean fs₀ sources).conflicts.isEmpty = true
  · rw [if_pos h]
  · rw [if_neg h]
    rfl

/-- Accepting the batch conflict prompt runs the overwrite loop over the
queued conflicts (when there are none, both sides are the main-loop state). -/
theorem processRun_accept (render : Source → Option String) (clean : Bool)
    (fs₀ : List (String × String)) (sources : List Source) :
    (processRun render clean true fs₀ sources).1 =
      (mainLoop render clean fs₀ sources).conflicts.foldl (overwriteStep render)
        (mainLoop render clean fs₀ sources) := by
  unfold processRun
  by_cases h : (mainLoop render clean fs₀ sources).conflicts.isEmpty = true
  · rw [if_pos h, List.isEmpty_iff.mp h]
    rfl
  · rw [if_neg h]
    rfl

/-- The overwrite loop never touches a path that none of its items targets,
and never drops a newly-generated icon. -/
theorem overwrite_fold_frame (render : Source → Option String) :
    ∀ (rest : List Source) (st : RunState) (p : String),
      (∀ c ∈ rest, svePath c ≠ p) →
      mapLookup ((rest.foldl (overwriteStep render) st)).fs p = mapLookup st.fs p := by
  intro rest
  induction rest with
  | nil => intro st p _; rfl
  | cons c rest ih =>
    intro st p hp
    rw [List.foldl_cons]
    rw [ih _ p (fun d hd => hp d (List.mem_cons_of_mem c hd))]
    unfold overwriteStep
    by_cases hdup : c.componentName ∈ st.processedComponentNamesInRun
    · rw [if_pos hdup]
    · rw [if_neg hdup]
      cases render c with
      | some content =>
        rw [show ({ st with
            fs := jsMapSet st.fs (svePath c) content,
            newlyGeneratedIcons := st.newlyGeneratedIcons ++
              [{ baseName := c.baseName, componentName := c.componentName }],
            processedComponentNamesInRun :=
              st.processedComponentNamesInRun ++ [c.componentName],
            successCount := st.successCount + 1 } : RunState).fs =
          jsMapSet st.fs (svePath c) content from rfl]
        rw [mapLookup_jsMapSet,
          if_neg (show ¬p = svePath c from fun hc => hp c (List.mem_cons_self c rest) hc.symm)]
      | none => rfl

/-- The overwrite loop only appends to the newly-generated list. -/
theorem overwrite_fold_newly_mono (render : Source → Option String) :
    ∀ (rest : List Source) (st : RunState) (i : IconIdentity),
      i ∈ st.newlyGeneratedIcons →
      i ∈ ((rest.foldl (overwriteStep render) st)).newlyGeneratedIcons := by
  intro rest
  induction rest with
  | nil => intro st i hi; exact hi
  | cons c rest ih =>
    intro st i hi
    rw [List.foldl_cons]
    refine ih _ i ?_
    unfold overwriteStep
    by_cases hdup : c.componentName ∈ st.processedComponentNamesInRun
    · rw [if_pos hdup]
      exact hi
    · rw [if_neg hdup]
      cases render c with
      | some content => exact List.mem_append_left _ hi
      | none => exact hi

/-- After accepting the batch prompt, every queued conflict whose identifier
is fresh (pairwise distinct among the conflicts, not generated earlier in the
run) and whose rendering succeeds is written: its rendered content is at its
target path and its identity joins the newly-generated list. -/
theorem overwrite_fold_writes (render : Source → Option String) :
    ∀ (conflicts : List Source) (st : RunState),
      ((conflicts.map (fun c => c.componentName)).Nodup) →
      (∀ c ∈ conflicts, c.componentName ∉ st.processedComponentNamesInRun) →
      ∀ c ∈ conflicts, ∀ content : String, render c = some content →
        mapLookup ((conflicts.foldl (overwriteStep render) st)).fs (svePath c) = some content ∧
        { baseName := c.baseName, componentName := c.componentName } ∈
          ((conflicts.foldl (overwriteStep render) st)).newlyGeneratedIcons := by
  intro conflicts
  induction conflicts with
  | nil =>
    intro st _ _ c hc
    cases hc
  | cons c₀ rest ih =>
    intro st hnd hpr c hc content hr
    have hd0 : c₀.componentName ∉ st.processedComponentNamesInRun :=
      hpr c₀ (List.mem_cons_self c₀ rest)
    have hnd0 : c₀.componentName ∉ rest.map (fun c => c.componentName) :=
      (List.nodup_cons.mp hnd).1
    have hndr : (rest.map (fun c => c.componentName)).Nodup := (List.nodup_cons.mp hnd).2
    rw [List.foldl_cons]
    rcases List.mem_cons.mp hc with rfl | hc
    · have hst' : overwriteStep render st c =
          { st with
            fs := jsMapSet st.fs (svePath c) content,
            newlyGeneratedIcons := st.newlyGeneratedIcons ++
              [{ baseName := c.baseName, componentName := c.componentName }],
            processedComponentNamesInRun :=
              st.processedComponentNamesInRun ++ [c.componentName],
            successCount := st.successCount + 1 } := by
        unfold overwriteStep
        rw [if_neg hd0, hr]
      have hne : ∀ d ∈ rest, svePath d ≠ svePath c := by
        intro d hd hc2
        exact hnd0 (svePath_inj hc2 ▸ List.mem_map_of_mem (fun c => c.componentName) hd)
      constructor
      · rw [overwrite_fold_frame render rest _ (svePath c) hne, hst']
        show mapLookup (jsMapSet st.fs (svePath c) content) (svePath c) = some content
        rw [mapLookup_jsMapSet, if_pos rfl]
      · refine overwrite_fold_newly_mono render rest _ _ ?_
        rw [hst']
        exact List.mem_append_right _ (List.mem_singleton.mpr rfl)
    · refine ih (overwriteStep render st c₀) hndr ?_ c hc content hr
      intro d hd
      have hdn : d.componentName ∉ st.processedComponentNamesInRun :=
        hpr d (List.mem_cons_of_mem c₀ hd)
      have hdc : d.componentName ≠ c₀.componentName := by
        intro hc2
        exact hnd0 (hc2 ▸ List.mem_map_of_mem (fun c => c.componentName) hd)
      have hsub : (overwriteStep render st c₀).processedComponentNamesInRun =
            st.processedComponentNamesInRun ∨
          (overwriteStep render st c₀).processedComponentNamesInRun =
            st.processedComponentNamesInRun ++ [c₀.componentName] := by
        unfold overwriteStep
        by_cases hdup : c₀.componentName ∈ st.processedComponentNamesInRun
        · rw [if_pos hdup]
          exact Or.inl rfl
        · rw [if_neg hdup]
          cases render c₀ with
          | some w => exact Or.inr rfl
          | none => exact Or.inl rfl
      rcases hsub with hsub | hsub <;> rw [hsub]
      · exact hdn
      · intro hc2
        rcases List.mem_append.mp hc2 with hc2 | hc2
        · exact hdn hc2
        · simp only [List.mem_singleton] at hc2
          exact hdc hc2

/-- C4 counterexample: with the batch prompt accepted, not every conflicting
item gets written.  First run: the single conflicting item's rendering fails,
so it is counted as failed and the pre-existing file is untouched.  Second
run: two sources share the conflicting identifier `A`; the first conflict is
overwritten, the second is silently skipped (its rendered content `y` never
reaches the disk, no counter moves for it). -/
theorem conflict_overwrite_cx :
    processRun (fun _ => none) false true [("A.svelte", "old")]
        [{ origin := "x", baseName := "a", componentName := "A" }] =
      ({ fs := [("A.svelte", "old")],
         newlyGeneratedIcons := [],
         conflicts := [{ origin := "x", baseName := "a", componentName := "A" }],
         processedComponentNamesInRun := [],
         successCount := 0,
         errorCount := 1 }, 0) ∧
    processRun (fun s => some s.origin) false true [("A.svelte", "old")]
        [{ origin := "x", baseName := "a", componentName := "A" },
         { origin := "y", baseName := "a", componentName := "A" }] =
      ({ fs := [("A.svelte", "x")],
         newlyGeneratedIcons := [{ baseName := "a", componentName := "A" }],
         conflicts := [{ origin := "x", baseName := "a", componentName := "A" },
                       { origin := "y", baseName := "a", componentName := "A" }],
         processedComponentNamesInRun := ["A"],
         successCount := 1,
         errorCount := 0 }, 0) := by
  refine ⟨by decide, by decide⟩

/-- C4 amended: for every source of the batch whose target component file
already exists and with no clean requested, nothing is written for it during
the main pass (its pre-existing file keeps its content through the whole
pass); if the operator declines, the pre-existing file is byte-identical at
the end, no newly-generated icon carries the source's identifier, and every
pre-existing icon (in particular one with the same identifier) is still
produced by the final directory scan that feeds the aggregate artifacts; if
the operator accepts, every conflicting item whose identifier is fresh
(pairwise distinct among the conflicts and not generated earlier in the run)
and whose rendering succeeds is written. -/
theorem conflict_resolution_spec (render : Source → Option String)
    (fs₀ : List (String × String)) (sources : List Source) (s : Source)
    (_hs : s ∈ sources) (hex : svePath s ∈ mapKeys fs₀) :
    mapLookup (mainLoop render false fs₀ sources).fs (svePath s) =
      mapLookup fs₀ (svePath s) ∧
    mapLookup (processRun render false false fs₀ sources).1.fs (svePath s) =
      mapLookup fs₀ (svePath s) ∧
    (∀ i ∈ (processRun render false false fs₀ sources).1.newlyGeneratedIcons,
      i.componentName ≠ s.componentName) ∧
    (∀ j : IconIdentity, j ∈ getCurrentIconsFromComponents (mapKeys fs₀) →
      j ∈ getCurrentIconsFromComponents
        (mapKeys (processRun render false false fs₀ sources).1.fs)) ∧
    ((((mainLoop render false fs₀ sources).conflicts.map (fun c => c.componentName)).Nodup) →
      (∀ c ∈ (mainLoop render false fs₀ sources).conflicts,
        c.componentName ∉ (mainLoop render false fs₀ sources).processedComponentNamesInRun) →
      ∀ c ∈ (mainLoop render false fs₀ sources).conflicts, ∀ content : String,
        render c = some content →
          mapLookup (processRun render false true fs₀ sources).1.fs (svePath c) =
            some content ∧
          { baseName := c.baseName, componentName := c.componentName } ∈
            (processRun render false true fs₀ sources).1.newlyGeneratedIcons) := by
  obtain ⟨hP1, hP2, hQ1, hQ2⟩ := mainLoop_inv render fs₀ s.componentName hex sources
  refine ⟨hP1 _ hex, ?_, ?_, ?_, ?_⟩
  · rw [processRun_decline]
    exact hP1 _ hex
  · rw [processRun_decline]
    exact fun i hi hc => hQ2 i hi hc
  · intro j hj
    rw [processRun_decline]
    rcases (getCurrentIcons_mem _ j).mp hj with ⟨f, hf, hsv, hio⟩
    exact (getCurrentIcons_mem _ j).mpr ⟨f, hP2 f hf, hsv, hio⟩
  · intro hnd hpr c hc content hr
    rw [processRun_accept]
    exact overwrite_fold_writes render _ _ hnd hpr c hc content hr

/-- C4 witness: a concrete declined conflict — the pre-existing `A.svelte`
keeps its contents. -/
theorem conflict_resolution_spec_witness :
    ({ origin := "x", baseName := "a", componentName := "A" } : Source) ∈
      [({ origin := "x", baseName := "a", componentName := "A" } : Source)] ∧
    svePath { origin := "x", baseName := "a", componentName := "A" } ∈
      mapKeys [("A.svelte", "old")] ∧
    mapLookup
        (processRun (fun s => some s.origin) false false [("A.svelte", "old")]
          [{ origin := "x", baseName := "a", componentName := "A" }]).1.fs
        (svePath { origin := "x", baseName := "a", componentName := "A" }) =
      mapLookup [("A.svelte", "old")]
        (svePath { origin := "x", baseName := "a", componentName := "A" }) :=
  ⟨by decide, by decide,
   (conflict_resolution_spec (fun s => some s.origin) [("A.svelte", "old")]
     [{ origin := "x", baseName := "a", componentName := "A" }]
     { origin := "x", baseName := "a", componentName := "A" }
     (by decide) (by decide)).2.1⟩

/-- An ASCII lowercase letter is not uppercase. -/
theorem isLowerCh_not_upper {c : Char} (h : isLowerCh c = true) : isUpperCh c = false := by
  have hb := (isLowerCh_iff c).mp h
  rw [Bool.eq_false_iff]
  intro hc
  have := (isUpperCh_iff c).mp hc
  omega

/-- An ASCII digit is neither uppercase nor lowercase. -/
theorem isDigitCh_not_upper_lower {c : Char} (h : isDigitCh c = true) :
    isUpperCh c = false ∧ isLowerCh c = false := by
  have hb : 48 ≤ c.toNat ∧ c.toNat ≤ 57 := by simpa [isDigitCh] using h
  constructor
  · rw [Bool.eq_false_iff]
    intro hc
    have := (isUpperCh_iff c).mp hc
    omega
  · rw [Bool.eq_false_iff]
    intro hc
    have := (isLowerCh_iff c).mp hc
    omega

/-- The replacement for disallowed characters always lands in the allowed
class. -/
theorem isAllowedChar_replaceDisallowed (c : Char) :
    isAllowedChar (replaceDisallowed c) = true := by
  unfold replaceDisallowed
  by_cases h : isAllowedChar c = true
  · rw [if_pos h]
    exact h
  · rw [if_neg h]
    decide

/-- Collapsing hyphen runs only keeps characters of the input. -/
theorem mem_collapseDashes : ∀ l : List Char, ∀ c ∈ collapseDashes l, c ∈ l := by
  intro l
  induction l with
  | nil => intro c hc; cases hc
  | cons c₁ rest ih =>
    cases rest with
    | nil => intro c hc; exact hc
    | cons c₂ rest₂ =>
      intro c hc
      unfold collapseDashes at hc
      by_cases h : (c₁ = '-' && c₂ = '-') = true
      · rw [if_pos h] at hc
        exact List.mem_cons_of_mem c₁ (ih c hc)
      · rw [if_neg h] at hc
        rcases List.mem_cons.mp hc with rfl | hc
        · exact List.mem_cons_self c _
        · exact List.mem_cons_of_mem c₁ (ih c hc)

/-- Trimming hyphens only keeps characters of the input. -/
theorem mem_trimDashes (l : List Char) : ∀ c ∈ trimDashes l, c ∈ l := by
  intro c hc
  unfold trimDashes at hc
  rw [List.mem_reverse] at hc
  have h1 := (List.dropWhile_sublist (fun d => d = '-')).subset hc
  rw [List.mem_reverse] at h1
  exact (List.dropWhile_sublist (fun d => d = '-')).subset h1

/-- Every character of a sanitized base name is non-uppercase and belongs to
the lowercase slug alphabet `[a-z0-9_-]`. -/
theorem jsBaseNameList_chars (l : List Char) :
    ∀ c ∈ jsBaseNameList l,
      isUpperCh c = false ∧
      (isLowerCh c = true ∨ isDigitCh c = true ∨ c = '_' ∨ c = '-') := by
  intro c hc
  unfold jsBaseNameList at hc
  rcases List.mem_map.mp hc with ⟨d, hd, hde⟩
  have hd2 := mem_trimDashes _ d hd
  have hd3 := mem_collapseDashes _ d hd2
  rcases List.mem_map.mp hd3 with ⟨e, _, hee⟩
  have he : isAllowedChar d = true := hee ▸ isAllowedChar_replaceDisallowed e
  have hcls : isUpperCh d = true ∨ isLowerCh d = true ∨ isDigitCh d = true ∨
      d = '_' ∨ d = '-' := by
    unfold isAllowedChar at he
    simpa [or_assoc] using he
  refine ⟨hde ▸ isUpperCh_toLowerCh d, ?_⟩
  rcases hcls with h | h | h | h | h
  · exact Or.inl (hde ▸ toLowerCh_of_upper h)
  · rw [← hde, toLowerCh_of_not_upper (isLowerCh_not_upper h)]
    exact Or.inl h
  · rw [← hde, toLowerCh_of_not_upper (isDigitCh_not_upper_lower h).1]
    exact Or.inr (Or.inl h)
  · rw [← hde, h]
    refine Or.inr (Or.inr (Or.inl ?_))
    decide
  · rw [← hde, h]
    refine Or.inr (Or.inr (Or.inr ?_))
    decide

/-- `split` never returns an empty list of segments. -/
theorem splitSep_ne_nil (p : Char → Bool) : ∀ l : List Char, splitSep p l ≠ [] := by
  intro l
  cases l with
  | nil => exact List.cons_ne_nil _ _
  | cons c rest =>
    unfold splitSep
    by_cases h : p c = true
    · rw [if_pos h]
      exact List.cons_ne_nil _ _
    · rw [if_neg h]
      cases hsp : splitSep p rest with
      | nil => exact List.cons_ne_nil _ _
      | cons s ss => exact List.cons_ne_nil _ _

/-- No segment of a split contains a separator. -/
theorem splitSep_no_sep (p : Char → Bool) :
    ∀ l : List Char, ∀ s ∈ splitSep p l, ∀ c ∈ s, p c = false := by
  intro l
  induction l with
  | nil =>
    intro s hs c hc
    simp only [splitSep, List.mem_singleton] at hs
    rw [hs] at hc
    cases hc
  | cons c₀ rest ih =>
    intro s hs c hc
    unfold splitSep at hs
    by_cases h : p c₀ = true
    · rw [if_pos h] at hs
      rcases List.mem_cons.mp hs with rfl | hs
      · cases hc
      · exact ih s hs c hc
    · rw [if_neg h] at hs
      cases hsp : splitSep p rest with
      | nil => exact absurd hsp (splitSep_ne_nil p rest)
      | cons s₀ ss =>
        rw [hsp] at hs
        rcases List.mem_cons.mp hs with rfl | hs
        · rcases List.mem_cons.mp hc with rfl | hc
          · rw [Bool.eq_false_iff]
            exact h
          · exact ih s₀ (hsp ▸ List.mem_cons_self s₀ ss) c hc
        · exact ih s (hsp ▸ List.mem_cons_of_mem s₀ hs) c hc

/-- Every character of a split segment is a character of the input. -/
theorem splitSep_subset (p : Char → Bool) :
    ∀ l : List Char, ∀ s ∈ splitSep p l, ∀ c ∈ s, c ∈ l := by
  intro l
  induction l with
  | nil =>
    intro s hs c hc
    simp only [splitSep, List.mem_singleton] at hs
    rw [hs] at hc
    cases hc
  | cons c₀ rest ih =>
    intro s hs c hc
    unfold splitSep at hs
    by_cases h : p c₀ = true
    · rw [if_pos h] at hs
      rcases List.mem_cons.mp hs with rfl | hs
      · cases hc
      · exact List.mem_cons_of_mem c₀ (ih s hs c hc)
    · rw [if_neg h] at hs
      cases hsp : splitSep p rest with
      | nil => exact absurd hsp (splitSep_ne_nil p rest)
      | cons s₀ ss =>
        rw [hsp] at hs
        rcases List.mem_cons.mp hs with rfl | hs
        · rcases List.mem_cons.mp hc with rfl | hc
          · exact List.mem_cons_self c _
          · exact List.mem_cons_of_mem c₀
              (ih s₀ (hsp ▸ List.mem_cons_self s₀ ss) c hc)
        · exact List.mem_cons_of_mem c₀
            (ih s (hsp ▸ List.mem_cons_of_mem s₀ hs) c hc)

/-- On a non-empty segment list, interleaving hyphens before each segment is
one hyphen and then the hyphen-joined segments. -/
theorem dashJoin_eq (ss : List (List Char)) (h : ss ≠ []) :
    dashJoin ss = '-' :: joinSep ss := by
  cases ss with
  | nil => exact absurd rfl h
  | cons s ss' => rfl

/-- Splitting on `-`/`_` and rejoining with `-` is the identity on lists
without underscores. -/
theorem joinSep_splitSep (l : List Char) (h : '_' ∉ l) :
    joinSep (splitSep sepChar l) = l := by
  induction l with
  | nil => rfl
  | cons c rest ih =>
    have h' : '_' ∉ rest := fun hc => h (List.mem_cons_of_mem c hc)
    unfold splitSep
    by_cases hp : sepChar c = true
    · have hcd : c = '-' := by
        unfold sepChar at hp
        rcases Bool.or_eq_true_iff.mp hp with h1 | h1
        · exact of_decide_eq_true h1
        · exact absurd (of_decide_eq_true h1 ▸ List.mem_cons_self c rest) h
      rw [if_pos hp]
      show dashJoin (splitSep sepChar rest) = c :: rest
      rw [dashJoin_eq _ (splitSep_ne_nil sepChar rest), ih h', hcd]
    · rw [if_neg hp]
      cases hsp : splitSep sepChar rest with
      | nil => exact absurd hsp (splitSep_ne_nil sepChar rest)
      | cons s ss =>
        rw [hsp] at ih
        show joinSep ((c :: s) :: ss) = c :: rest
        show c :: joinSep (s :: ss) = c :: rest
        rw [ih h']

/-- One step of the dash-inserting replacement at an uppercase head of the
whole string (offset 0): no dash, just lower-casing. -/
theorem insertDashes_cons_upper_first (x : Char) (l : List Char) (h : isUpperCh x = true) :
    insertDashes true (x :: l) = toLowerCh x :: insertDashes false l := by
  conv_lhs => unfold insertDashes
  rw [if_pos h]
  simp

/-- One step of the dash-inserting replacement at an uppercase character past
offset 0: a dash and the lower-cased letter. -/
theorem insertDashes_cons_upper_rest (x : Char) (l : List Char) (h : isUpperCh x = true) :
    insertDashes false (x :: l) = '-' :: toLowerCh x :: insertDashes false l := by
  conv_lhs => unfold insertDashes
  rw [if_pos h]
  simp

/-- The dash-inserting replacement passes a non-uppercase character through. -/
theorem insertDashes_cons_not_upper (first : Bool) (x : Char) (l : List Char)
    (h : isUpperCh x = false) :
    insertDashes first (x :: l) = x :: insertDashes false l := by
  conv_lhs => unfold insertDashes
  rw [h]
  simp

/-- The dash-inserting replacement passes a whole uppercase-free prefix
through. -/
theorem insertDashes_append_no_upper (t : List Char)
    (h : ∀ c ∈ t, isUpperCh c = false) :
    ∀ r : List Char, insertDashes false (t ++ r) = t ++ insertDashes false r := by
  induction t with
  | nil => intro r; rfl
  | cons c t ih =>
    intro r
    rw [List.cons_append,
      insertDashes_cons_not_upper false c _ (h c (List.mem_cons_self c t)),
      ih (fun d hd => h d (List.mem_cons_of_mem c hd)) r]
    rfl

/-- Recovering the capitalized tail segments: each segment's capitalized
head letter turns back into a hyphen and the lowercase letter, so the
concatenation recovers the hyphen-joined segments. -/
theorem insertDashes_capitalized_tail (ps : List (List Char))
    (hhd : ∀ s ∈ ps, headIsLower s = true)
    (hch : ∀ s ∈ ps, ∀ c ∈ s, isUpperCh c = false) :
    insertDashes false ((ps.map capitalize).flatten) = dashJoin ps := by
  induction ps with
  | nil => rfl
  | cons s ps ih =>
    cases s with
    | nil =>
      have := hhd [] (List.mem_cons_self [] ps)
      simp [headIsLower] at this
    | cons c t =>
      have hc : isLowerCh c = true := by
        have := hhd (c :: t) (List.mem_cons_self _ ps)
        simpa [headIsLower] using this
      have ht : ∀ d ∈ t, isUpperCh d = false := fun d hd =>
        hch (c :: t) (List.mem_cons_self _ ps) d (List.mem_cons_of_mem c hd)
      have hhd' : ∀ s ∈ ps, headIsLower s = true :=
        fun s hs => hhd s (List.mem_cons_of_mem _ hs)
      have hch' : ∀ s ∈ ps, ∀ d ∈ s, isUpperCh d = false :=
        fun s hs d hd => hch s (List.mem_cons_of_mem _ hs) d hd
      show insertDashes false ((toUpperCh c :: t) ++ (ps.map capitalize).flatten) = _
      rw [List.cons_append,
        insertDashes_cons_upper_rest _ _ (isUpperCh_toUpperCh hc),
        toLowerCh_toUpperCh hc,
        insertDashes_append_no_upper t ht,
        ih hhd' hch']
      show '-' :: c :: (t ++ dashJoin ps) = ('-' :: c :: t) ++ dashJoin ps
      rfl

/-- C1 counterexample: the raw label `ab_cd.svg` sanitizes to base name
`ab_cd` with component identifier `AbCd`, whose characters produce no
consecutive uppercase letters, yet the inverse recovers `ab-cd`: the
underscore round-trips to a hyphen. -/
theorem roundtrip_cx :
    sanitizeName "ab_cd.svg" = some { baseName := "ab_cd", componentName := "AbCd" } ∧
    noConsecUpper ("AbCd".data) = true ∧
    componentNameToBaseName "AbCd" = some "ab-cd" ∧
    componentNameToBaseName "AbCd" ≠ some "ab_cd" := by
  refine ⟨by decide, by decide, by decide, by decide⟩

/-- C1 amended: for every raw label on which `sanitizeName` succeeds and whose
base name contains no underscore and splits into hyphen-delimited segments
that are all non-empty with every segment after the first beginning with a
lowercase ASCII letter, applying `componentNameToBaseName` to the returned
component identifier recovers exactly the base name. -/
theorem roundtrip_amended (label : String) (r : IconIdentity)
    (h : sanitizeName label = some r)
    (hnu : '_' ∉ r.baseName.data)
    (hne : ∀ s ∈ splitSep sepChar r.baseName.data, s ≠ [])
    (hhd : ∀ s ∈ (splitSep sepChar r.baseName.data).tail, headIsLower s = true) :
    componentNameToBaseName r.componentName = some r.baseName := by
  unfold sanitizeName at h
  by_cases hb : jsBaseName label = ""
  · rw [if_pos hb] at h
    cases h
  rw [if_neg hb] at h
  have hr := Option.some.inj h
  have hrb : r.baseName = jsBaseName label := by rw [← hr]
  have hrc : r.componentName = jsComponentName r.baseName := by
    rw [← hr]
  have hchars := jsBaseNameList_chars label.data
  have hchars' : ∀ c ∈ r.baseName.data, isUpperCh c = false ∧
      (isLowerCh c = true ∨ isDigitCh c = true ∨ c = '_' ∨ c = '-') := by
    intro c hc
    refine hchars c ?_
    rw [hrb] at hc
    exact hc
  cases hp : splitSep sepChar r.baseName.data with
  | nil => exact absurd hp (splitSep_ne_nil sepChar _)
  | cons p₀ ps =>
    cases hp0 : p₀ with
    | nil => exact absurd (hp0 ▸ hp ▸ List.mem_cons_self p₀ ps) (fun hc => hne [] hc rfl)
    | cons c t =>
      have hmem0 : (c :: t) ∈ splitSep sepChar r.baseName.data := by
        rw [hp]
        exact hp0 ▸ List.mem_cons_self p₀ ps
      have hcsep : sepChar c = false :=
        splitSep_no_sep sepChar _ _ hmem0 c (List.mem_cons_self c t)
      have hcne : c ≠ '-' ∧ c ≠ '_' := by
        unfold sepChar at hcsep
        constructor
        · intro hc
          rw [hc] at hcsep
          cases hcsep
        · intro hc
          rw [hc] at hcsep
          cases hcsep
      have hcin : c ∈ r.baseName.data :=
        splitSep_subset sepChar _ _ hmem0 c (List.mem_cons_self c t)
      have hcc := hchars' c hcin
      have hcld : isLowerCh c = true ∨ isDigitCh c = true := by
        rcases hcc.2 with h1 | h1 | h1 | h1
        · exact Or.inl h1
        · exact Or.inr h1
        · exact absurd h1 hcne.2
        · exact absurd h1 hcne.1
      have htch : ∀ d ∈ t, isUpperCh d = false := fun d hd =>
        (hchars' d (splitSep_subset sepChar _ _ hmem0 d (List.mem_cons_of_mem c hd))).1
      have hpsh : ∀ s ∈ ps, headIsLower s = true := by
        intro s hs
        refine hhd s ?_
        rw [hp]
        exact hs
      have hpsc : ∀ s ∈ ps, ∀ d ∈ s, isUpperCh d = false := by
        intro s hs d hd
        have hsm : s ∈ splitSep sepChar r.baseName.data := by
          rw [hp]
          exact List.mem_cons_of_mem p₀ hs
        exact (hchars' d (splitSep_subset sepChar _ _ hsm d hd)).1
      have hflat : jsComponentNameList r.baseName.data =
          (toUpperCh c :: t) ++ (ps.map capitalize).flatten := by
        unfold jsComponentNameList
        rw [hp, hp0]
        rfl
      have hcd : c ≠ '-' := hcne.1
      have hins : stripOneDash (insertDashes true (jsComponentNameList r.baseName.data)) =
          r.baseName.data := by
        rw [hflat, List.cons_append]
        rcases hcld with hlow | hdig
        · rw [insertDashes_cons_upper_first _ _ (isUpperCh_toUpperCh hlow),
            toLowerCh_toUpperCh hlow,
            insertDashes_append_no_upper t htch,
            insertDashes_capitalized_tail ps hpsh hpsc,
            stripOneDash_cons _ hcd]
          have : (c :: (t ++ dashJoin ps)) = joinSep ((c :: t) :: ps) := rfl
          rw [this, ← hp0, ← hp, joinSep_splitSep _ hnu]
        · have hdup := isDigitCh_not_upper_lower hdig
          rw [toUpperCh_of_not_lower hdup.2,
            insertDashes_cons_not_upper true c _ hdup.1,
            insertDashes_append_no_upper t htch,
            insertDashes_capitalized_tail ps hpsh hpsc,
            stripOneDash_cons _ hcd]
          have : (c :: (t ++ dashJoin ps)) = joinSep ((c :: t) :: ps) := rfl
          rw [this, ← hp0, ← hp, joinSep_splitSep _ hnu]
      have hnn : jsComponentNameList r.baseName.data ≠ [] := by
        rw [hflat]
        exact List.cons_ne_nil _ _
      rw [hrc]
      unfold componentNameToBaseName jsComponentName
      rw [if_neg (mk_ne_empty hnn)]
      rw [show (⟨jsComponentNameList r.baseName.data⟩ : String).data =
        jsComponentNameList r.baseName.data from rfl]
      rw [hins]

/-- C1 witness: the round-trip at `my-icon.svg`. -/
theorem roundtrip_amended_witness :
    sanitizeName "my-icon.svg" =
      some { baseName := "my-icon", componentName := "MyIcon" } ∧
    componentNameToBaseName
        ({ baseName := "my-icon", componentName := "MyIcon" } : IconIdentity).componentName =
      some ({ baseName := "my-icon", componentName := "MyIcon" } : IconIdentity).baseName :=
  ⟨by decide,
   roundtrip_amended "my-icon.svg" { baseName := "my-icon", componentName := "MyIcon" }
     (by decide) (by decide) (by decide) (by decide)⟩
